import Mathlib

/-!
Verification of the Feishu document-assembly pipeline
(`src/common/backend/services/feishu/service.ts`).

The embedding models JS strings as `List Char`, JS numbers that matter here
as `Int`/`Nat`, `undefined`-able fields as `Option`, thrown exceptions as
`Except`, and network collaborators (the OAuth worker, the Feishu REST API,
image downloads/uploads) as explicit oracle parameters.  Remote calls are
recorded in an ordered event trace; the sequential `await` structure of the
source makes the trace order the submission order.
-/

set_option autoImplicit false

namespace Feishu

/-! ### Character classes

JS `.` in a regex matches everything except the line terminators
`\n`, `\r`, U+2028, U+2029. -/

/-- Character class of JS regex line terminators (the characters NOT matched
by `.`). -/
def isLineTerm (c : Char) : Bool :=
  c = '\n' || c = '\r' || c.toNat = 0x2028 || c.toNat = 0x2029

/-- Character class of JS regex `\s` (whitespace), as used by
`token.replace(/\s+/g, '')` in `requestWithToken` (service.ts:97). -/
def isJsWs (c : Char) : Bool :=
  c = ' ' || c = '\t' || c = '\n' || c.toNat = 11 || c.toNat = 12 || c = '\r' ||
  c.toNat = 0xa0 || c.toNat = 0x1680 ||
  (0x2000 ≤ c.toNat && c.toNat ≤ 0x200a) ||
  c.toNat = 0x2028 || c.toNat = 0x2029 || c.toNat = 0x202f ||
  c.toNat = 0x205f || c.toNat = 0x3000 || c.toNat = 0xfeff

/-- `token.replace(/\s+/g, '')` (service.ts:97): removing every run of
whitespace is the same as removing every whitespace character. -/
def stripWs (s : List Char) : List Char := s.filter (fun c => !isJsWs c)

/-! ### The image-marker regex

service.ts:245 splits the content on `(!\[.*?\]\(.*?\))` and service.ts:249
re-matches each part against `!\[.*?\]\((.*?)\)`.  Both regexes are modelled
by one backtracking matcher specialised to this pattern.  `completeMatch`
models the engine state after the literal `![` has been consumed: the lazy
`.*?` grows one (non-line-terminator) character at a time until the literal
`](` matches and the second lazy `.*?` can reach a `)`; on an inner failure
the star swallows the `](` and the scan continues.  -/

/-- Lazy `.*?\)`: split off the shortest prefix of non-line-terminator
characters that is followed by `)`; return that prefix (the URL capture
group) and the remainder after the `)`. -/
def lazyUrl : List Char → Option (List Char × List Char)
  | [] => none
  | c :: rest =>
    if c = ')' then some ([], rest)
    else if isLineTerm c then none
    else match lazyUrl rest with
      | some (u, r) => some (c :: u, r)
      | none => none

/-- Backtracking continuation of the image regex after `![`.  Returns
`(altText, url, restAfterMatch)` for the match the JS engine produces,
or `none` when the engine fails at this starting position. -/
def completeMatch : List Char → Option (List Char × List Char × List Char)
  | ']' :: '(' :: rest =>
    (match lazyUrl rest with
      | some (u, r) => some ([], u, r)
      | none =>
        match completeMatch rest with
        | some (a, u, r) => some (']' :: '(' :: a, u, r)
        | none => none)
  | c :: rest =>
    if isLineTerm c then none
    else match completeMatch rest with
      | some (a, u, r) => some (c :: a, u, r)
      | none => none
  | [] => none

/-- Leftmost match of `!\[.*?\]\(.*?\)` in a string, decomposed as
`(before, altText, url, after)`; `none` when the regex does not match.
The full matched text is `![` ++ altText ++ `](` ++ url ++ `)`. -/
def findImage : List Char → Option (List Char × List Char × List Char × List Char)
  | '!' :: '[' :: rest =>
    (match completeMatch rest with
      | some (a, u, r) => some ([], a, u, r)
      | none =>
        match findImage rest with
        | some (b, a, u, r) => some ('!' :: '[' :: b, a, u, r)
        | none => none)
  | c :: rest =>
    (match findImage rest with
      | some (b, a, u, r) => some (c :: b, a, u, r)
      | none => none)
  | [] => none

/-! ### Line splitting -/

/-- JS `part.split(/\r?\n/)` (service.ts:254): split on `\n`, consuming an
immediately preceding `\r`; a lone `\r` is not a separator.  The result is
never empty (an empty string splits to `[""]`). -/
def splitLines : List Char → List (List Char)
  | [] => [[]]
  | '\r' :: '\n' :: rest => [] :: splitLines rest
  | '\n' :: rest => [] :: splitLines rest
  | c :: rest =>
    match splitLines rest with
    | l :: ls => (c :: l) :: ls
    | [] => [[c]]

/-! ### Content segmentation (service.ts:244-259)

The source splits the content on the image regex (keeping the captured
markers), then turns each non-empty part either into one Image segment
(carrying the URL capture) or, via a further split on `\r?\n`, into one Text
segment per resulting line — empty lines included.  `segmentAux` performs
the same left-to-right traversal, one leftmost regex match per step; the
fuel argument (strictly more than the string length) only discharges
termination and is never exhausted, since each step strictly shrinks the
remainder. -/

/-- ContentSegment: the `{type: 'text' | 'image', data: string}` records of
service.ts:246. -/
inductive Seg where
  | text (value : List Char) : Seg
  | image (sourceUrl : List Char) : Seg
deriving DecidableEq, Repr

/-- Fuel-indexed segmentation loop: before-text of the leftmost image match
becomes Text segments (one per line), the match becomes an Image segment,
and the remainder is processed recursively; with no match left, the whole
rest becomes Text segments, empty parts yielding nothing. -/
def segmentAux : Nat → List Char → List Seg
  | 0, _ => []
  | fuel + 1, s =>
    match findImage s with
    | none => if s.isEmpty then [] else (splitLines s).map Seg.text
    | some (b, _, url, after) =>
      (if b.isEmpty then [] else (splitLines b).map Seg.text)
        ++ Seg.image url :: segmentAux fuel after

/-- The segmentation step of `createDocument` (service.ts:244-259). -/
def segmentContent (s : List Char) : List Seg := segmentAux (s.length + 1) s

/-! ### Reconstruction (for the round-trip property)

The source drops the alt text of an image marker (the capture keeps only the
URL, service.ts:249-251).  To state the round-trip property we instrument
the segmentation with the alt text the regex consumed and prove that
forgetting it yields exactly the source's segmentation. -/

/-- ContentSegment instrumented with the alt text the image regex consumed. -/
inductive SegF where
  | text (value : List Char) : SegF
  | image (alt url : List Char) : SegF
deriving DecidableEq, Repr

/-- Forget the recorded alt text, recovering the source's segment. -/
def eraseAlt : SegF → Seg
  | .text v => .text v
  | .image _ u => .image u

/-- `segmentAux` instrumented with alt texts; same traversal, same fuel. -/
def segmentFullAux : Nat → List Char → List SegF
  | 0, _ => []
  | fuel + 1, s =>
    match findImage s with
    | none => if s.isEmpty then [] else (splitLines s).map SegF.text
    | some (b, alt, url, after) =>
      (if b.isEmpty then [] else (splitLines b).map SegF.text)
        ++ SegF.image alt url :: segmentFullAux fuel after

/-- Instrumented segmentation of a whole content string. -/
def segmentFull (s : List Char) : List SegF := segmentFullAux (s.length + 1) s

/-- Line-break normalization: one left-to-right pass replacing each CRLF by
LF; all other characters (including lone CRs) are kept. -/
def normalizeNl : List Char → List Char
  | '\r' :: '\n' :: rest => '\n' :: normalizeNl rest
  | c :: rest => c :: normalizeNl rest
  | [] => []

/-- Rejoin a list of lines with LF separators. -/
def joinLines : List (List Char) → List Char
  | [] => []
  | [l] => l
  | l :: ls => l ++ '\n' :: joinLines ls

/-- Reconstruct a content string from instrumented segments: Text values,
re-joined with LF where two Text segments are adjacent (adjacent Text
segments always come from one line-split part), and an `![alt](url)` marker
re-inserted for each Image segment. -/
def reconstructF : List SegF → List Char
  | [] => []
  | SegF.text v :: rest =>
    v ++ (match rest with
          | SegF.text _ :: _ => '\n' :: reconstructF rest
          | _ => reconstructF rest)
  | SegF.image a u :: rest =>
    '!' :: '[' :: (a ++ ']' :: '(' :: (u ++ ')' :: reconstructF rest))

/-! ### Chunking (service.ts:262-265) -/

/-- Fuel-indexed version of the chunking loop
`for (let i = 0; i < segments.length; i += chunkSize)` with
`chunk = segments.slice(i, i + chunkSize)` and `chunkSize = 50`; fuel of at
least the list length is never exhausted. -/
def chunkAux {α : Type} : Nat → List α → List (List α)
  | 0, _ => []
  | _, [] => []
  | fuel + 1, x :: l => ((x :: l).take 50) :: chunkAux fuel ((x :: l).drop 50)

/-- The ordered batches of at most 50 segments submitted by
`createDocument`. -/
def chunk50 {α : Type} (l : List α) : List (List α) := chunkAux l.length l

/-! ### Credential snapshot and token lifecycle (service.ts:22-88) -/

/-- FeishuBackendServiceConfig (interface.ts): the credential snapshot.
Optional fields model `string | undefined` / `number | undefined`. -/
structure Config where
  workerUrl : List Char
  accessToken : Option (List Char) := none
  refreshToken : Option (List Char) := none
  expiresAt : Option Int := none
deriving DecidableEq, Repr

/-- JS truthiness of an optional string: `undefined` and `""` are falsy. -/
def truthyStr : Option (List Char) → Bool
  | none => false
  | some s => !s.isEmpty

/-- JSON body returned by the OAuth worker's `/refresh` endpoint; every
field may be absent. -/
structure WorkerData where
  access_token : Option (List Char) := none
  refresh_token : Option (List Char) := none
  expires_in : Option Int := none
  error : Option (List Char) := none
deriving DecidableEq, Repr

/-- Outcome of the `fetch` to the worker: a parsed JSON reply, or a thrown
transport/parse failure. -/
inductive WorkerResp where
  | ok (data : WorkerData) : WorkerResp
  | transportFail : WorkerResp
deriving DecidableEq, Repr

/-- `Number(data.expires_in) || 7200` (service.ts:50): an absent field
(`Number(undefined)` is NaN, falsy) and `0` both fall back to 7200. -/
def expiresInOr7200 : Option Int → Int
  | none => 7200
  | some e => if e = 0 then 7200 else e

/-- refreshToken (service.ts:22-56) with the worker call mocked by `w`:
a missing refresh token or worker URL, a transport failure, and an `error`
field in the reply all throw; on success the whole snapshot is replaced,
with `expiresAt = now + (expires_in || 7200)`. -/
def refreshTokenM (info : Config) (now : Int) (w : WorkerResp) : Except Unit Config :=
  if !truthyStr info.refreshToken || info.workerUrl.isEmpty then .error ()
  else
    match w with
    | .transportFail => .error ()
    | .ok data =>
      if truthyStr data.error then .error ()
      else .ok { info with
        accessToken := data.access_token,
        refreshToken := data.refresh_token,
        expiresAt := some (now + expiresInOr7200 data.expires_in) }

/-- `const shouldRefresh = expiresAt && now > expiresAt - 300`
(service.ts:60-62): `Number(undefined)` is NaN (falsy) and an expiry equal
to `0` is falsy, so both skip the refresh. -/
def shouldRefresh (cfg : Config) (now : Int) : Bool :=
  match cfg.expiresAt with
  | none => false
  | some e => e != 0 && decide (now > e - 300)

/-- Error taxonomy of the pipeline: the kinds of `Error` the service
throws.  `apiError` carries only the message string the source puts into
`new Error(json.msg || ...)` (service.ts:129) — the numeric code is only
logged, not attached.  `invalidTokenFormat` is the rewrapped error of the
catch block (service.ts:136-138), whose message embeds the cleaned token's
length. -/
inductive Err where
  | sessionExpired : Err
  | missingToken : Err
  | apiError (message : List Char) : Err
  | invalidTokenFormat (tokenLength : Nat) : Err
  | transport : Err
deriving DecidableEq, Repr

/-- getAccessToken (service.ts:58-88): refresh when `shouldRefresh` holds,
replace the snapshot on success, map any refresh failure to the
session-expired error; otherwise return the current access token (possibly
`undefined`) unchanged.  The `Nat` component counts refresh-collaborator
invocations (0 or 1). -/
def getAccessTokenM (cfg : Config) (now : Int) (w : WorkerResp) :
    Except Err (Option (List Char)) × Config × Nat :=
  if shouldRefresh cfg now then
    match refreshTokenM cfg now w with
    | .ok newCfg => (.ok newCfg.accessToken, newCfg, 1)
    | .error _ => (.error .sessionExpired, cfg, 1)
  else (.ok cfg.accessToken, cfg, 0)

/-! ### Authenticated transport (service.ts:90-141) -/

/-- Outcome of the network interaction of one API call: the parsed envelope
`{code, msg, data}`, or a throw raised inside the `try` body before the
envelope is inspected (`Headers` construction, `fetch` rejection, or
`response.json()` parse failure), carrying that JS error's message. -/
inductive FetchResult (α : Type) where
  | ok (code : Int) (msg : List Char) (data : α) : FetchResult α
  | fail (emsg : List Char) : FetchResult α
deriving DecidableEq, Repr

/-- Whether a mocked fetch outcome is a success envelope (`code` 0). -/
def isSuccess {α : Type} : FetchResult α → Bool
  | .ok code _ _ => code == 0
  | .fail _ => false

/-- Children payload entries of a block-creation call (service.ts:268-280):
`image` is the placeholder `{block_type: 27, image: {token: ""}}`; `text v`
is `{block_type: 2, text: {elements: [{text_run: {content: v}}]}}`. -/
inductive Block where
  | image : Block
  | text (content : List Char) : Block
deriving DecidableEq, Repr

/-- Request bodies of the document-service calls made by the pipeline. -/
inductive Body where
  | createDoc (folderToken title : List Char) : Body
  | children (children : List Block) (index : Int) : Body
  | patch (requests : List (List Char × List Char)) : Body
deriving DecidableEq, Repr

/-- One remote call to the document service, as recorded in the trace: the
path, the bearer credential actually attached, and the request body. -/
inductive Event where
  | apiCall (path : List Char) (authHeader : List Char) (body : Body) : Event
deriving DecidableEq, Repr

/-- `Bearer ${token}` header value. -/
def bearer (token : List Char) : List Char := "Bearer ".toList ++ token

/-- The fallback error message `Feishu API Error code: ${json.code}`
(service.ts:129). -/
def fallbackMsg (code : Int) : List Char :=
  "Feishu API Error code: ".toList ++ (toString code).toList

/-- JS `pat` is a prefix of the character list. -/
def startsWithChars : List Char → List Char → Bool
  | [], _ => true
  | _ :: _, [] => false
  | p :: ps, c :: cs => p = c && startsWithChars ps cs

/-- JS `s.includes(pat)`: the pattern occurs as a contiguous substring. -/
def includesChars (pat : List Char) : List Char → Bool
  | [] => startsWithChars pat []
  | c :: cs => startsWithChars pat (c :: cs) || includesChars pat cs

/-- The catch guard `e.message && e.message.includes('Headers')`
(service.ts:136): an empty message is falsy and skips the check. -/
def containsHeaders (emsg : List Char) : Bool :=
  !emsg.isEmpty && includesChars ("Headers".toList) emsg

/-- requestWithToken (service.ts:90-141) with the network outcome mocked by
`resp`: acquire a token (possibly refreshing the snapshot), throw when it is
falsy, strip ALL whitespace from it, record the call, then run the `try`
body — a non-zero `code` throws `Error(msg || fallback)` (service.ts:129)
and a transport-level throw propagates — under the catch of
service.ts:133-140, which rewraps any error whose message contains
`'Headers'` into the invalid-token-format error (carrying the cleaned
token's length) and rethrows every other error.  The catch applies to every
throw of the `try` body; here it is unfolded per throw site, tagging a
rethrown network/parse error `transport` and a rethrown envelope error
`apiError` with its message. -/
def requestWithTokenM {α : Type} (cfg : Config) (now : Int) (w : WorkerResp)
    (path : List Char) (body : Body) (resp : FetchResult α) :
    Except Err α × Config × List Event :=
  match getAccessTokenM cfg now w with
  | (.error e, cfg1, _) => (.error e, cfg1, [])
  | (.ok tok, cfg1, _) =>
    if !truthyStr tok then (.error .missingToken, cfg1, [])
    else
      let cleanToken := stripWs (tok.getD [])
      let ev := Event.apiCall path (bearer cleanToken) body
      match resp with
      | .fail emsg =>
        if containsHeaders emsg then
          (.error (.invalidTokenFormat cleanToken.length), cfg1, [ev])
        else (.error .transport, cfg1, [ev])
      | .ok code msg data =>
        if code = 0 then (.ok data, cfg1, [ev])
        else
          if containsHeaders (if msg.isEmpty then fallbackMsg code else msg) then
            (.error (.invalidTokenFormat cleanToken.length), cfg1, [ev])
          else
            (.error (.apiError (if msg.isEmpty then fallbackMsg code else msg)), cfg1, [ev])

/-! ### Media upload (service.ts:183-217) -/

/-- Outcome of the image `fetch(url)` download. -/
inductive DownloadOutcome where
  | throws : DownloadOutcome
  | resp (ok : Bool) : DownloadOutcome
deriving DecidableEq, Repr

/-- Outcome of the `medias/upload_all` call. -/
inductive UploadOutcome where
  | throws : UploadOutcome
  | resp (code : Int) (fileToken : List Char) : UploadOutcome
deriving DecidableEq, Repr

instance exceptDecEq {ε α : Type} [DecidableEq ε] [DecidableEq α] :
    DecidableEq (Except ε α) := fun x y =>
  match x, y with
  | .ok a, .ok b =>
    if h : a = b then isTrue (by rw [h]) else isFalse (by simp [h])
  | .error a, .error b =>
    if h : a = b then isTrue (by rw [h]) else isFalse (by simp [h])
  | .ok _, .error _ => isFalse (by simp)
  | .error _, .ok _ => isFalse (by simp)

/-- Collaborator outcomes for one `uploadImage` run; `tokenOutcome` is the
result of the inner `getAccessToken()` call (which can itself throw). -/
structure UploadEnv where
  download : DownloadOutcome
  tokenOutcome : Except Err (Option (List Char))
  upload : UploadOutcome
deriving DecidableEq, Repr

/-- Side effects of one `uploadImage` run. -/
inductive ImgEvent where
  | download (url : List Char) : ImgEvent
  | upload (authHeader : List Char) (parentNode : List Char) : ImgEvent
deriving DecidableEq, Repr

/-- JS template-literal interpolation of a possibly-undefined string. -/
def jsInterp : Option (List Char) → List Char
  | none => "undefined".toList
  | some s => s

/-- uploadImage (service.ts:183-217): download the image, then upload it
with the RAW bearer token (no whitespace stripping, service.ts:203).  Every
failure — download rejection, non-ok download status, token-acquisition
throw, upload rejection, non-zero upload code — is caught or checked and
yields `none`; only a code-0 upload yields the media token. -/
def uploadImageM (env : UploadEnv) (url parentNode : List Char) :
    Option (List Char) × List ImgEvent :=
  match env.download with
  | .throws => (none, [.download url])
  | .resp ok =>
    if !ok then (none, [.download url])
    else
      match env.tokenOutcome with
      | .error _ => (none, [.download url])
      | .ok tok =>
        let ev := ImgEvent.upload (bearer (jsInterp tok)) parentNode
        match env.upload with
        | .throws => (none, [.download url, ev])
        | .resp code fileToken =>
          if code = 0 then (some fileToken, [.download url, ev])
          else (none, [.download url, ev])

/-! ### Document assembly (service.ts:219-323) -/

/-- FeishuCreateDocumentRequest (interface.ts). -/
structure CreateReq where
  title : List Char
  content : List Char
  repositoryId : List Char
deriving DecidableEq, Repr

/-- FeishuCompleteStatus (interface.ts). -/
structure Completion where
  href : List Char
  repositoryId : List Char
  documentId : List Char
deriving DecidableEq, Repr

/-- Collaborator outcomes for one `createDocument` run: a shared clock, the
worker reply, the document-creation response, the block-creation and patch
responses indexed by batch number, and the per-image upload result
`(url, blockId) ↦ media token or null` — the latter abstracts `uploadImage`
by its (proven, see the C8 theorem) non-throwing `Option` result. -/
structure CDEnv where
  now : Int
  workerResp : WorkerResp
  createDocResp : FetchResult (List Char)
  childrenResp : Nat → FetchResult (List (List Char))
  upload : List Char → List Char → Option (List Char)
  patchResp : Nat → FetchResult Unit

/-- The children payload entry for one segment (service.ts:268-280). -/
def toBlock : Seg → Block
  | .image _ => .image
  | .text v => .text v

/-- The upload jobs initiated for one batch (the `j` loop,
service.ts:292-303): for each position `j` holding an image segment whose
created child exists, the pair `(block_id, imageUrl)`, in position order. -/
def collectImagePairs (chunk : List Seg) (created : List (List Char)) :
    List (List Char × List Char) :=
  (List.range chunk.length).filterMap fun j =>
    match chunk[j]?, created[j]? with
    | some (Seg.image url), some blockId => some (blockId, url)
    | _, _ => none

/-- `results.filter(r => r.token !== null).map(...)` (service.ts:308-310):
keep the successful `{blockId, token}` pairs, in order. -/
def successfulUpdates (results : List (List Char × Option (List Char))) :
    List (List Char × List Char) :=
  results.filterMap fun p =>
    match p.2 with
    | some tok => some (p.1, tok)
    | none => none

/-- batchUpdateBlocks (service.ts:219-231): return immediately on an empty
update list (no call); otherwise make one PATCH call pairing each block id
with its `replace_image` token; any failure of that call is caught and
swallowed. -/
def batchUpdateBlocksM (cfg : Config) (env : CDEnv) (documentId : List Char)
    (batchIdx : Nat) (updates : List (List Char × List Char)) :
    Config × List Event :=
  if updates.isEmpty then (cfg, [])
  else
    let path := "/open-apis/docx/v1/documents/".toList ++ documentId ++
      "/blocks/batch_update".toList
    match requestWithTokenM cfg env.now env.workerResp path (Body.patch updates)
        (env.patchResp batchIdx) with
    | (_, cfg1, evs) => (cfg1, evs)

/-- The per-batch loop of service.ts:262-315: for each batch, one
block-creation call (whose failure propagates, aborting all later batches),
then the uploads of that batch's images (initiated only for image segments
whose created child exists), then the best-effort patch call (issued only
when at least one upload was initiated and at least one succeeded).  The
batch index `i` selects the mocked responses. -/
def processBatches (env : CDEnv) (documentId : List Char) :
    Config → List (List Seg) → Nat → Except Err Unit × Config × List Event
  | cfg, [], _ => (.ok (), cfg, [])
  | cfg, chunk :: rest, i =>
    let childrenPayload := chunk.map toBlock
    let path := "/open-apis/docx/v1/documents/".toList ++ documentId ++
      "/blocks/".toList ++ documentId ++ "/children".toList
    match requestWithTokenM cfg env.now env.workerResp path
        (Body.children childrenPayload (-1)) (env.childrenResp i) with
    | (.error e, cfg1, evs) => (.error e, cfg1, evs)
    | (.ok created, cfg1, evs) =>
      let pairs := collectImagePairs chunk created
      let results := pairs.map fun p => (p.1, env.upload p.2 p.1)
      let step :=
        if pairs.isEmpty then (cfg1, ([] : List Event))
        else batchUpdateBlocksM cfg1 env documentId i (successfulUpdates results)
      match processBatches env documentId step.1 rest (i + 1) with
      | (res, cfg3, evs2) => (res, cfg3, evs ++ step.2 ++ evs2)

/-- createDocument (service.ts:233-323) with collaborators mocked by `env`:
create the document, segment the content, process the batches (the source's
`segments.length > 0` guard is the empty chunk list), and return the
completion record; a failure of the document-creation call or of any
block-creation call propagates. -/
def createDocumentM (cfg : Config) (env : CDEnv) (info : CreateReq) :
    Except Err Completion × List Event :=
  match requestWithTokenM cfg env.now env.workerResp
      "/open-apis/docx/v1/documents".toList
      (Body.createDoc info.repositoryId info.title) env.createDocResp with
  | (.error e, _, evs) => (.error e, evs)
  | (.ok documentId, cfg1, evs) =>
    let segments := segmentContent info.content
    match processBatches env documentId cfg1 (chunk50 segments) 0 with
    | (.error e, _, evs2) => (.error e, evs ++ evs2)
    | (.ok _, _, evs2) =>
      (.ok { href := "https://feishu.cn/docx/".toList ++ documentId,
             repositoryId := info.repositoryId, documentId := documentId },
       evs ++ evs2)

/-! ### Trace observations -/

/-- The block-creation batch payloads of a trace, in submission order. -/
def childrenBatches (evs : List Event) : List (List Block) :=
  evs.filterMap fun e =>
    match e with
    | .apiCall _ _ (Body.children cs _) => some cs
    | _ => none

/-- The patch-call request lists of a trace, in submission order. -/
def patchBatches (evs : List Event) : List (List (List Char × List Char)) :=
  evs.filterMap fun e =>
    match e with
    | .apiCall _ _ (Body.patch reqs) => some reqs
    | _ => none

/-- Whether a segment is an image segment. -/
def Seg.isImage : Seg → Bool
  | .image _ => true
  | .text _ => false

/-! ### Concrete fixtures used by witnesses and counterexamples -/

/-- A healthy snapshot: non-expiring, with a non-empty access token. -/
def testCfg : Config :=
  { workerUrl := "https://w.example".toList,
    accessToken := some ("tok".toList),
    refreshToken := some ("r".toList),
    expiresAt := none }

/-- A snapshot whose recorded expiry is the falsy value `0`. -/
def cfgZero : Config := { testCfg with expiresAt := some 0 }

/-- A snapshot expiring at epoch second 500. -/
def cfgExp : Config := { testCfg with expiresAt := some 500 }

/-- A successful worker reply. -/
def wOk : WorkerResp :=
  .ok { access_token := some ("newtok".toList),
        refresh_token := some ("newref".toList),
        expires_in := some 7200 }

/-- The snapshot obtained by refreshing `cfgExp` at epoch second 1000 with
the reply `wOk` (new expiry 1000 + 7200). -/
def cfgRefreshed : Config :=
  { workerUrl := "https://w.example".toList,
    accessToken := some ("newtok".toList),
    refreshToken := some ("newref".toList),
    expiresAt := some 8200 }

/-- A document-service environment whose every call fails at transport
level (thrown errors with an empty message). -/
def envFail : CDEnv :=
  { now := 1,
    workerResp := .transportFail,
    createDocResp := .fail [],
    childrenResp := fun _ => .fail [],
    upload := fun _ _ => none,
    patchResp := fun _ => .fail [] }

/-- A healthy document-service environment: document creation returns id
"D", every block-creation call succeeds with an empty children array, every
upload fails, every patch call fails. -/
def envC3 : CDEnv :=
  { now := 1,
    workerResp := .transportFail,
    createDocResp := .ok 0 [] ("D".toList),
    childrenResp := fun _ => .ok 0 [] [],
    upload := fun _ _ => none,
    patchResp := fun _ => .fail [] }

/-- A healthy document-service environment whose block-creation calls
return three block ids and whose upload oracle succeeds only for the source
URL "u1". -/
def envC7 : CDEnv :=
  { now := 1,
    workerResp := .transportFail,
    createDocResp := .ok 0 [] ("D".toList),
    childrenResp := fun _ => .ok 0 [] [("b1".toList), ("b2".toList), ("b3".toList)],
    upload := fun url _ => if url = "u1".toList then some ("tk1".toList) else none,
    patchResp := fun _ => .ok 0 [] () }

/-- Upload collaborators whose download throws. -/
def upEnvThrow : UploadEnv :=
  { download := .throws,
    tokenOutcome := .ok (some ("tok".toList)),
    upload := .resp 0 ("ft".toList) }

/-- Upload collaborators whose upload returns a non-zero code. -/
def upEnvBadCode : UploadEnv :=
  { download := .resp true,
    tokenOutcome := .ok (some ("tok".toList)),
    upload := .resp 99 ("ft".toList) }

/-- Upload collaborators holding a token that contains a space. -/
def upEnvWs : UploadEnv :=
  { download := .resp true,
    tokenOutcome := .ok (some ("a b".toList)),
    upload := .resp 0 ("ft".toList) }

/-- A healthy snapshot whose access token contains a space. -/
def cfgWs : Config :=
  { workerUrl := "https://w.example".toList,
    accessToken := some ("a b".toList),
    refreshToken := some ("r".toList),
    expiresAt := none }

/-- A fixed request. -/
def reqFix : CreateReq :=
  { title := "T".toList, content := "Hello".toList, repositoryId := "fld".toList }

/-! ## Theorems -/

/-- Soundness of `lazyUrl`: the input decomposes as the URL capture, the
closing `)`, and the remainder, and the capture has no line terminator. -/
theorem lazyUrl_sound : ∀ (s u r : List Char), lazyUrl s = some (u, r) →
    s = u ++ ')' :: r ∧ ∀ c ∈ u, isLineTerm c = false := by
  intro s
  induction s using lazyUrl.induct with
  | case1 => intro u r h; simp [lazyUrl] at h
  | case2 rest =>
    intro u r h
    simp [lazyUrl] at h
    obtain ⟨hu, hr⟩ := h
    subst hu
    subst hr
    simp
  | case3 c rest h1 h2 =>
    intro u r h
    simp [lazyUrl, h1, h2] at h
  | case4 c rest h1 h2 u' r' hrec ih =>
    intro u r h
    simp [lazyUrl, h1, h2, hrec] at h
    obtain ⟨hu, hr⟩ := h
    obtain ⟨he, hne⟩ := ih u' r' hrec
    subst hu hr
    refine ⟨by simp [he], ?_⟩
    intro d hd
    rcases List.mem_cons.mp hd with h | h
    · subst h; simpa using h2
    · exact hne d h
  | case5 c rest h1 h2 hnone ih =>
    intro u r h
    simp [lazyUrl, h1, h2, hnone] at h

/-- Soundness of `completeMatch`: the input decomposes as the alt capture,
`](`, the URL capture, `)`, and the remainder; neither capture contains a
line terminator. -/
theorem completeMatch_sound : ∀ (s a u r : List Char), completeMatch s = some (a, u, r) →
    s = a ++ ']' :: '(' :: u ++ ')' :: r ∧
      (∀ c ∈ a, isLineTerm c = false) ∧ (∀ c ∈ u, isLineTerm c = false) := by
  intro s
  induction s using completeMatch.induct with
  | case1 rest u' r' hlazy =>
    intro a u r h
    simp [completeMatch, hlazy] at h
    obtain ⟨ha, hu, hr⟩ := h
    obtain ⟨he, hne⟩ := lazyUrl_sound rest u' r' hlazy
    subst ha hu hr
    simpa [he] using hne
  | case2 rest hlazy a' u' r' hrec ih =>
    intro a u r h
    simp [completeMatch, hlazy, hrec] at h
    obtain ⟨ha, hu, hr⟩ := h
    obtain ⟨he, hna, hnu⟩ := ih a' u' r' hrec
    subst ha hu hr
    refine ⟨by simp [he], ?_, hnu⟩
    intro d hd
    rcases List.mem_cons.mp hd with h | h
    · simp [h, isLineTerm]
    · rcases List.mem_cons.mp h with h' | h'
      · simp [h', isLineTerm]
      · exact hna d h'
  | case3 rest hlazy hnone ih =>
    intro a u r h
    simp [completeMatch, hlazy, hnone] at h
  | case4 c rest hg hlt =>
    intro a u r h
    rw [completeMatch.eq_def] at h
    split at h
    · next rest1 heq =>
        injection heq with h1 h2
        exact (hg rest1 h1 h2).elim
    · next c1 rest1 hg1 heq =>
        injection heq with h1 h2
        subst h1 h2
        simp [hlt] at h
    · next heq => simp at heq
  | case5 c rest hg hlt a' u' r' hrec ih =>
    intro a u r h
    rw [completeMatch.eq_def] at h
    split at h
    · next rest1 heq =>
        injection heq with h1 h2
        exact (hg rest1 h1 h2).elim
    · next c1 rest1 hg1 heq =>
        injection heq with h1 h2
        subst h1 h2
        simp [hlt, hrec] at h
        obtain ⟨ha, hu, hr⟩ := h
        obtain ⟨he, hna, hnu⟩ := ih a' u' r' hrec
        subst ha hu hr
        refine ⟨by simp [he], ?_, hnu⟩
        intro d hd
        rcases List.mem_cons.mp hd with hh | hh
        · subst hh; simpa using hlt
        · exact hna d hh
    · next heq => simp at heq
  | case6 c rest hg hlt hnone ih =>
    intro a u r h
    rw [completeMatch.eq_def] at h
    split at h
    · next rest1 heq =>
        injection heq with h1 h2
        exact (hg rest1 h1 h2).elim
    · next c1 rest1 hg1 heq =>
        injection heq with h1 h2
        subst h1 h2
        simp [hlt, hnone] at h
    · next heq => simp at heq
  | case7 =>
    intro a u r h
    simp [completeMatch] at h

/-- Soundness of `findImage`: the input decomposes as the text before the
match, the full matched image marker, and the remainder after it. -/
theorem findImage_sound : ∀ (s b a u r : List Char), findImage s = some (b, a, u, r) →
    s = b ++ '!' :: '[' :: (a ++ ']' :: '(' :: (u ++ ')' :: r)) ∧
      (∀ c ∈ a, isLineTerm c = false) ∧ (∀ c ∈ u, isLineTerm c = false) := by
  intro s
  induction s using findImage.induct with
  | case1 rest a' u' r' hcm =>
    intro b a u r h
    simp [findImage, hcm] at h
    obtain ⟨hb, ha, hu, hr⟩ := h
    obtain ⟨he, hna, hnu⟩ := completeMatch_sound rest a' u' r' hcm
    subst hb ha hu hr
    simpa [he] using ⟨hna, hnu⟩
  | case2 rest hcm b' a' u' r' hrec ih =>
    intro b a u r h
    simp [findImage, hcm, hrec] at h
    obtain ⟨hb, ha, hu, hr⟩ := h
    obtain ⟨he, hna, hnu⟩ := ih b' a' u' r' hrec
    subst hb ha hu hr
    exact ⟨by simp [he], hna, hnu⟩
  | case3 rest hcm hnone ih =>
    intro b a u r h
    simp [findImage, hcm, hnone] at h
  | case4 c rest hg b' a' u' r' hrec ih =>
    intro b a u r h
    rw [findImage.eq_def] at h
    split at h
    · next rest1 heq =>
        injection heq with h1 h2
        exact (hg rest1 h1 h2).elim
    · next c1 rest1 hg1 heq =>
        injection heq with h1 h2
        subst h1 h2
        simp [hrec] at h
        obtain ⟨hb, ha, hu, hr⟩ := h
        obtain ⟨he, hna, hnu⟩ := ih b' a' u' r' hrec
        subst hb ha hu hr
        exact ⟨by simp [he], hna, hnu⟩
    · next heq => simp at heq
  | case5 c rest hg hnone ih =>
    intro b a u r h
    rw [findImage.eq_def] at h
    split at h
    · next rest1 heq =>
        injection heq with h1 h2
        exact (hg rest1 h1 h2).elim
    · next c1 rest1 hg1 heq =>
        injection heq with h1 h2
        subst h1 h2
        simp [hnone] at h
    · next heq => simp at heq
  | case6 =>
    intro b a u r h
    simp [findImage] at h

/-- The remainder after a leftmost image match is strictly shorter than the
input (the match itself occupies at least five characters). -/
theorem findImage_after_lt {s b a u r : List Char}
    (h : findImage s = some (b, a, u, r)) : r.length < s.length := by
  have he := (findImage_sound s b a u r h).1
  subst he
  simp [List.length_append]
  omega

/-- `splitLines` never returns the empty list. -/
theorem splitLines_ne_nil (t : List Char) : splitLines t ≠ [] := by
  induction t using splitLines.induct <;> simp_all [splitLines]

/-- Unfolding of `joinLines` on a two-element-or-more list. -/
theorem joinLines_cons_cons (l₁ l₂ : List Char) (ls : List (List Char)) :
    joinLines (l₁ :: l₂ :: ls) = l₁ ++ '\n' :: joinLines (l₂ :: ls) := rfl

/-- A head character moves out of `joinLines`. -/
theorem joinLines_cons_head (c : Char) (l : List Char) (ls : List (List Char)) :
    joinLines ((c :: l) :: ls) = c :: joinLines (l :: ls) := by
  cases ls <;> simp [joinLines]

/-- Unfolding of `normalizeNl` whenever the CRLF pattern does not begin at
the head. -/
theorem normalizeNl_cons (c : Char) (rest : List Char)
    (h : c ≠ '\r' ∨ rest.head? ≠ some '\n') :
    normalizeNl (c :: rest) = c :: normalizeNl rest := by
  rw [normalizeNl.eq_def]
  split
  · next rest1 heq =>
      injection heq with h1 h2
      subst h1
      subst h2
      rcases h with h | h
      · exact absurd rfl h
      · simp at h
  · next c1 rest1 hg heq =>
      injection heq with h1 h2
      subst h1
      subst h2
      rfl
  · next heq => simp at heq

/-- Rejoining the split lines with LF performs exactly CRLF→LF
normalization. -/
theorem joinLines_splitLines (t : List Char) :
    joinLines (splitLines t) = normalizeNl t := by
  induction t using splitLines.induct with
  | case1 => rfl
  | case2 rest ih =>
    obtain ⟨l, ls, h⟩ := List.exists_cons_of_ne_nil (splitLines_ne_nil rest)
    rw [show splitLines ('\r' :: '\n' :: rest) = [] :: splitLines rest from rfl, h,
      joinLines_cons_cons, ← h, ih]
    rfl
  | case3 rest ih =>
    obtain ⟨l, ls, h⟩ := List.exists_cons_of_ne_nil (splitLines_ne_nil rest)
    rw [show splitLines ('\n' :: rest) = [] :: splitLines rest from rfl, h,
      joinLines_cons_cons, ← h, ih]
    rw [normalizeNl_cons '\n' rest (Or.inl (by decide))]
    rfl
  | case4 c rest hg1 hg2 l ls hsplit ih =>
    rw [show splitLines (c :: rest) = (c :: l) :: ls from by
        rw [splitLines.eq_def]
        split
        · next heq => exact absurd heq (by simp_all)
        · next rest1 heq => exact absurd heq (by simp_all)
        · next rest1 heq => exact absurd heq (by simp_all)
        · next c1 rest1 hga hgb heq =>
            injection heq with e1 e2
            subst e1
            subst e2
            simp [hsplit]]
    rw [joinLines_cons_head, ← hsplit, ih]
    rw [normalizeNl_cons c rest ?_]
    by_cases hc : c = '\r'
    · subst hc
      right
      cases rest with
      | nil => simp
      | cons d rest2 =>
        simp only [List.head?_cons, ne_eq, Option.some.injEq]
        intro hd
        subst hd
        exact hg1 rest2 rfl rfl
    · exact Or.inl hc
  | case5 c rest hg1 hg2 hsplit ih =>
    exact absurd hsplit (splitLines_ne_nil rest)

/-- `normalizeNl` distributes over an append whose right part does not start
with LF (so no CRLF pair can straddle the boundary). -/
theorem normalizeNl_append (xs ys : List Char) (h : ys.head? ≠ some '\n') :
    normalizeNl (xs ++ ys) = normalizeNl xs ++ normalizeNl ys := by
  induction xs using normalizeNl.induct with
  | case1 rest ih =>
    rw [show ('\r' :: '\n' :: rest) ++ ys = '\r' :: '\n' :: (rest ++ ys) from rfl]
    rw [show normalizeNl ('\r' :: '\n' :: (rest ++ ys)) = '\n' :: normalizeNl (rest ++ ys) from rfl]
    rw [show normalizeNl ('\r' :: '\n' :: rest) = '\n' :: normalizeNl rest from rfl]
    rw [ih]
    rfl
  | case2 c rest hg ih =>
    rw [show (c :: rest) ++ ys = c :: (rest ++ ys) from rfl]
    have hguard : c ≠ '\r' ∨ rest.head? ≠ some '\n' := by
      by_cases hc : c = '\r'
      · subst hc
        right
        cases rest with
        | nil => simp
        | cons d rest2 =>
          simp only [List.head?_cons, ne_eq, Option.some.injEq]
          intro hd
          subst hd
          exact hg rest2 rfl rfl
      · exact Or.inl hc
    have hguard2 : c ≠ '\r' ∨ (rest ++ ys).head? ≠ some '\n' := by
      rcases hguard with hc | hr
      · exact Or.inl hc
      · cases rest with
        | nil => exact Or.inr (by simpa using h)
        | cons d rest2 => exact Or.inr (by simpa using hr)
    rw [normalizeNl_cons c (rest ++ ys) hguard2, normalizeNl_cons c rest hguard, ih]
    rfl
  | case3 => simp [show normalizeNl ([] : List Char) = [] from rfl]

/-- `normalizeNl` leaves a CR-free left part untouched. -/
theorem normalizeNl_append_no_cr (xs ys : List Char) (h : '\r' ∉ xs) :
    normalizeNl (xs ++ ys) = xs ++ normalizeNl ys := by
  induction xs with
  | nil => simp
  | cons c rest ih =>
    have hc : c ≠ '\r' := fun hh => h (by simp [hh])
    rw [List.cons_append, normalizeNl_cons c (rest ++ ys) (Or.inl hc),
      ih (fun hm => h (List.mem_cons_of_mem _ hm))]
    rfl

/-- Reconstruction of a pure text-segment list rejoins its lines. -/
theorem reconstructF_map_text (ls : List (List Char)) :
    reconstructF (ls.map SegF.text) = joinLines ls := by
  induction ls with
  | nil => rfl
  | cons l ls ih =>
    cases ls with
    | nil => simp [reconstructF, joinLines]
    | cons l2 ls2 =>
      rw [List.map_cons, List.map_cons,
        show reconstructF (SegF.text l :: SegF.text l2 :: List.map SegF.text ls2) =
          l ++ '\n' :: reconstructF (SegF.text l2 :: List.map SegF.text ls2) from rfl,
        ← List.map_cons, ih, joinLines_cons_cons]

/-- Reconstruction of text segments followed by an image segment: the text
block rejoins independently (no separator is inserted at the boundary). -/
theorem reconstructF_text_image (ls : List (List Char)) (a u : List Char)
    (rest : List SegF) :
    reconstructF (ls.map SegF.text ++ SegF.image a u :: rest) =
      joinLines ls ++ reconstructF (SegF.image a u :: rest) := by
  induction ls with
  | nil => simp [joinLines]
  | cons l ls ih =>
    cases ls with
    | nil => rfl
    | cons l2 ls2 =>
      rw [List.map_cons, List.cons_append,
        show reconstructF (SegF.text l :: (List.map SegF.text (l2 :: ls2) ++
            SegF.image a u :: rest)) =
          l ++ '\n' :: reconstructF (List.map SegF.text (l2 :: ls2) ++
            SegF.image a u :: rest) from rfl,
        ih, joinLines_cons_cons]
      simp

/-- The source's segmentation is the instrumented one with alt texts
forgotten. -/
theorem segmentAux_eq_erase : ∀ (fuel : Nat) (s : List Char),
    segmentAux fuel s = (segmentFullAux fuel s).map eraseAlt := by
  intro fuel
  induction fuel with
  | zero => intro s; rfl
  | succ n ih =>
    intro s
    cases h : findImage s with
    | none =>
      simp only [segmentAux, segmentFullAux, h]
      split
      · rfl
      · rw [List.map_map]; rfl
    | some q =>
      obtain ⟨b, a, u, r⟩ := q
      simp only [segmentAux, segmentFullAux, h, List.map_append, List.map_cons, ih r]
      split
      · rfl
      · rw [List.map_map]; rfl

/-- Characters that are not line terminators are not CR. -/
theorem not_cr_of_not_lineTerm {c : Char} (h : isLineTerm c = false) : c ≠ '\r' := by
  intro hc
  subst hc
  simp [isLineTerm] at h

/-- The re-inserted image marker contains no CR: its captures contain no
line terminator and its literal characters are not CR. -/
theorem marker_no_cr (a u : List Char) (hna : ∀ c ∈ a, isLineTerm c = false)
    (hnu : ∀ c ∈ u, isLineTerm c = false) :
    ('\r' : Char) ∉ ('!' :: '[' :: a ++ ']' :: '(' :: u ++ [')'] : List Char) := by
  intro hm
  rcases List.mem_cons.mp hm with h1 | h1
  · exact absurd h1 (by decide)
  rcases List.mem_cons.mp h1 with h2 | h2
  · exact absurd h2 (by decide)
  rcases List.mem_append.mp h2 with h3 | h3
  · rcases List.mem_append.mp h3 with h4 | h4
    · exact absurd rfl (not_cr_of_not_lineTerm (hna _ h4))
    rcases List.mem_cons.mp h4 with h5 | h5
    · exact absurd h5 (by decide)
    rcases List.mem_cons.mp h5 with h6 | h6
    · exact absurd h6 (by decide)
    · exact absurd rfl (not_cr_of_not_lineTerm (hnu _ h6))
  · exact absurd (List.mem_singleton.mp h3) (by decide)

/-- Round trip of the instrumented segmentation: reconstruction yields the
CRLF-normalized content. -/
theorem segmentFullAux_reconstruct : ∀ (fuel : Nat) (s : List Char), s.length < fuel →
    reconstructF (segmentFullAux fuel s) = normalizeNl s := by
  intro fuel
  induction fuel with
  | zero => intro s h; omega
  | succ n ih =>
    intro s hs
    cases h : findImage s with
    | none =>
      by_cases he : s.isEmpty
      · rw [List.isEmpty_iff.mp he]
        rfl
      · simp only [segmentFullAux, h, he, Bool.false_eq_true, if_false]
        rw [reconstructF_map_text, joinLines_splitLines]
    | some q =>
      obtain ⟨b, a, u, r⟩ := q
      obtain ⟨he, hna, hnu⟩ := findImage_sound s b a u r h
      have hlt : r.length < n := by
        have h1 := findImage_after_lt h
        omega
      have hrec := ih r hlt
      have hmarker : ('\r' : Char) ∉
          ('!' :: '[' :: a ++ ']' :: '(' :: u ++ [')'] : List Char) :=
        marker_no_cr a u hna hnu
      have hshape : s = b ++ ('!' :: '[' :: a ++ ']' :: '(' :: u ++ [')']) ++ r := by
        rw [he]
        simp
      have hnorm : normalizeNl s =
          normalizeNl b ++ ('!' :: '[' :: a ++ ']' :: '(' :: u ++ [')']) ++ normalizeNl r := by
        rw [hshape, List.append_assoc,
          normalizeNl_append b _ (by simp),
          normalizeNl_append_no_cr _ r hmarker]
        simp
      have hrecon : reconstructF (SegF.image a u :: segmentFullAux n r) =
          ('!' :: '[' :: a ++ ']' :: '(' :: u ++ [')']) ++ normalizeNl r := by
        rw [show reconstructF (SegF.image a u :: segmentFullAux n r) =
            '!' :: '[' :: (a ++ ']' :: '(' :: (u ++ ')' ::
              reconstructF (segmentFullAux n r))) from rfl, hrec]
        simp
      by_cases hb : b.isEmpty
      · simp only [segmentFullAux, h, hb, if_true, List.nil_append]
        rw [hrecon, hnorm, List.isEmpty_iff.mp hb]
        rfl
      · simp only [segmentFullAux, h, hb, Bool.false_eq_true, if_false]
        rw [reconstructF_text_image, joinLines_splitLines, hrecon, hnorm]
        simp

/-! ### Chunking lemmas -/

/-- Chunking the empty list gives no batches, whatever the fuel. -/
theorem chunkAux_nil {α : Type} (fuel : Nat) : chunkAux fuel ([] : List α) = [] := by
  cases fuel <;> rfl

/-- Concatenating the batches in order restores the segment list. -/
theorem chunkAux_flatten {α : Type} : ∀ (fuel : Nat) (l : List α), l.length ≤ fuel →
    (chunkAux fuel l).flatten = l := by
  intro fuel
  induction fuel with
  | zero =>
    intro l h
    rw [List.length_eq_zero.mp (Nat.le_zero.mp h)]
    rfl
  | succ n ih =>
    intro l h
    cases l with
    | nil => rfl
    | cons x t =>
      have hlen : ((x :: t).drop 50).length ≤ n := by
        simp only [List.length_drop, List.length_cons]
        simp only [List.length_cons] at h
        omega
      simp only [chunkAux, List.flatten_cons, ih _ hlen, List.take_append_drop]

/-- The number of batches is the length divided by 50, rounded up. -/
theorem chunkAux_length {α : Type} : ∀ (fuel : Nat) (l : List α), l.length ≤ fuel →
    (chunkAux fuel l).length = (l.length + 49) / 50 := by
  intro fuel
  induction fuel with
  | zero =>
    intro l h
    rw [List.length_eq_zero.mp (Nat.le_zero.mp h)]
    simp [chunkAux_nil]
  | succ n ih =>
    intro l h
    cases l with
    | nil => simp [chunkAux_nil]
    | cons x t =>
      have hlen : ((x :: t).drop 50).length ≤ n := by
        simp only [List.length_drop, List.length_cons]
        simp only [List.length_cons] at h
        omega
      rw [show chunkAux (n + 1) (x :: t) =
        ((x :: t).take 50) :: chunkAux n ((x :: t).drop 50) from rfl]
      rw [List.length_cons, ih _ hlen]
      simp only [List.length_drop, List.length_cons]
      omega

/-- Every batch is non-empty and holds at most 50 segments. -/
theorem chunkAux_sizes {α : Type} : ∀ (fuel : Nat) (l : List α), l.length ≤ fuel →
    ∀ c ∈ chunkAux fuel l, c ≠ [] ∧ c.length ≤ 50 := by
  intro fuel
  induction fuel with
  | zero =>
    intro l h c hc
    rw [List.length_eq_zero.mp (Nat.le_zero.mp h)] at hc
    simp [chunkAux_nil] at hc
  | succ n ih =>
    intro l h c hc
    cases l with
    | nil => simp [chunkAux_nil] at hc
    | cons x t =>
      have hlen : ((x :: t).drop 50).length ≤ n := by
        simp only [List.length_drop, List.length_cons]
        simp only [List.length_cons] at h
        omega
      simp only [chunkAux, List.mem_cons] at hc
      rcases hc with hc | hc
      · subst hc
        constructor
        · simp [List.take]
        · simpa using List.length_take_le 50 (x :: t)
      · exact ih _ hlen c hc

/-- Every batch except the last holds exactly 50 segments. -/
theorem chunkAux_dropLast_sizes {α : Type} : ∀ (fuel : Nat) (l : List α),
    l.length ≤ fuel → ∀ c ∈ (chunkAux fuel l).dropLast, c.length = 50 := by
  intro fuel
  induction fuel with
  | zero =>
    intro l h c hc
    rw [List.length_eq_zero.mp (Nat.le_zero.mp h)] at hc
    simp [chunkAux_nil] at hc
  | succ n ih =>
    intro l h c hc
    cases l with
    | nil => simp [chunkAux_nil] at hc
    | cons x t =>
      have hlen : ((x :: t).drop 50).length ≤ n := by
        simp only [List.length_drop, List.length_cons]
        simp only [List.length_cons] at h
        omega
      rw [show chunkAux (n + 1) (x :: t) =
        ((x :: t).take 50) :: chunkAux n ((x :: t).drop 50) from rfl] at hc
      cases hrest : chunkAux n ((x :: t).drop 50) with
      | nil =>
        rw [hrest] at hc
        simp at hc
      | cons r rs =>
        rw [hrest, List.dropLast_cons₂, List.mem_cons] at hc
        have hbig : 50 < (x :: t).length := by
          by_contra hsmall
          have hdrop : (x :: t).drop 50 = [] := by
            apply List.drop_eq_nil_of_le
            omega
          rw [hdrop, chunkAux_nil] at hrest
          exact List.noConfusion hrest
        rcases hc with hc | hc
        · subst hc
          simp only [List.length_take]
          omega
        · exact ih _ hlen c (by rw [hrest]; exact hc)

/-! ### Token and transport lemmas -/

/-- With no recorded expiry the token manager is inert: it returns the
current access token unchanged and never invokes the refresh collaborator
(service.ts:60-62, `Number(undefined)` is falsy). -/
theorem getAccessToken_no_expiry (cfg : Config) (now : Int) (w : WorkerResp)
    (h : cfg.expiresAt = none) :
    getAccessTokenM cfg now w = (.ok cfg.accessToken, cfg, 0) := by
  simp [getAccessTokenM, shouldRefresh, h]

/-- Closed form of `requestWithTokenM` under a healthy non-expiring token:
the snapshot is untouched, exactly one call event is recorded (carrying the
whitespace-stripped bearer token), and the outcome is the try body's
normalization of the envelope run under the Headers-rewrapping catch. -/
theorem requestWithToken_healthy {α : Type} (cfg : Config) (now : Int) (w : WorkerResp)
    (path : List Char) (body : Body) (resp : FetchResult α) (t : List Char)
    (hexp : cfg.expiresAt = none) (htok : cfg.accessToken = some t) (hne : t ≠ []) :
    requestWithTokenM cfg now w path body resp =
      ((match resp with
        | .fail emsg =>
          if containsHeaders emsg then
            .error (.invalidTokenFormat (stripWs t).length)
          else .error .transport
        | .ok code msg data =>
          if code = 0 then .ok data
          else
            if containsHeaders (if msg.isEmpty then fallbackMsg code else msg) then
              .error (.invalidTokenFormat (stripWs t).length)
            else .error (.apiError (if msg.isEmpty then fallbackMsg code else msg))),
       cfg, [Event.apiCall path (bearer (stripWs t)) body]) := by
  cases resp with
  | fail emsg =>
    simp only [requestWithTokenM, getAccessToken_no_expiry cfg now w hexp, htok]
    simp [truthyStr, hne]
    try split <;> rfl
  | ok code msg data =>
    by_cases hc : code = 0
    · simp [requestWithTokenM, getAccessToken_no_expiry cfg now w hexp, htok,
        truthyStr, hne, hc]
    · simp [requestWithTokenM, getAccessToken_no_expiry cfg now w hexp, htok,
        truthyStr, hne, hc]
      by_cases hh : containsHeaders (if msg = [] then fallbackMsg code else msg) = true
      · rw [if_pos hh, if_pos hh]
      · rw [if_neg hh, if_neg hh]

/-- Closed form of `batchUpdateBlocksM` under a healthy token: the snapshot
is untouched and the patch call is skipped exactly when the update list is
empty. -/
theorem batchUpdateBlocks_healthy (cfg : Config) (env : CDEnv) (docId : List Char)
    (i : Nat) (updates : List (List Char × List Char)) (t : List Char)
    (hexp : cfg.expiresAt = none) (htok : cfg.accessToken = some t) (hne : t ≠ []) :
    batchUpdateBlocksM cfg env docId i updates =
      (cfg,
       if updates.isEmpty then [] else
         [Event.apiCall ("/open-apis/docx/v1/documents/".toList ++ docId ++
            "/blocks/batch_update".toList) (bearer (stripWs t))
            (Body.patch updates)]) := by
  rw [batchUpdateBlocksM]
  by_cases hu : updates.isEmpty
  · simp [hu]
  · simp only [hu, Bool.false_eq_true, if_false]
    rw [requestWithToken_healthy cfg env.now env.workerResp _ _ _ t hexp htok hne]

/-- A mocked fetch outcome is a success exactly when it is a code-0
envelope. -/
theorem isSuccess_iff {α : Type} (r : FetchResult α) :
    isSuccess r = true ↔ ∃ msg d, r = .ok 0 msg d := by
  cases r with
  | ok code msg d =>
    constructor
    · intro h
      have hc : code = 0 := by simpa [isSuccess] using h
      subst hc
      exact ⟨msg, d, rfl⟩
    · rintro ⟨m2, d2, he⟩
      injection he with h1 h2 h3
      subst h1
      simp [isSuccess]
  | fail emsg =>
    simp [isSuccess]

/-- Under a healthy token, a code-0 envelope produces the data and one call
event. -/
theorem requestWithToken_ok {α : Type} (cfg : Config) (now : Int) (w : WorkerResp)
    (path : List Char) (body : Body) (msg : List Char) (d : α) (t : List Char)
    (hexp : cfg.expiresAt = none) (htok : cfg.accessToken = some t) (hne : t ≠ []) :
    requestWithTokenM cfg now w path body (.ok 0 msg d) =
      (.ok d, cfg, [Event.apiCall path (bearer (stripWs t)) body]) := by
  rw [requestWithToken_healthy cfg now w path body _ t hexp htok hne]
  simp

/-- Under a healthy token, a non-success outcome produces an error, but the
call event was still issued. -/
theorem requestWithToken_notSuccess {α : Type} (cfg : Config) (now : Int)
    (w : WorkerResp) (path : List Char) (body : Body) (resp : FetchResult α)
    (t : List Char) (hexp : cfg.expiresAt = none) (htok : cfg.accessToken = some t)
    (hne : t ≠ []) (hfail : isSuccess resp = false) :
    ∃ e, requestWithTokenM cfg now w path body resp =
      (.error e, cfg, [Event.apiCall path (bearer (stripWs t)) body]) := by
  rw [requestWithToken_healthy cfg now w path body resp t hexp htok hne]
  cases resp with
  | fail emsg =>
    by_cases hh : containsHeaders emsg = true
    · rw [show (match (FetchResult.fail emsg : FetchResult α) with
        | .fail emsg =>
          if containsHeaders emsg then
            Except.error (Err.invalidTokenFormat (stripWs t).length)
          else .error .transport
        | .ok code msg data =>
          if code = 0 then .ok data
          else
            if containsHeaders (if msg.isEmpty then fallbackMsg code else msg) then
              .error (.invalidTokenFormat (stripWs t).length)
            else .error (.apiError (if msg.isEmpty then fallbackMsg code else msg))) =
          Except.error (Err.invalidTokenFormat (stripWs t).length) from by
        rw [show (match (FetchResult.fail emsg : FetchResult α) with
          | .fail emsg =>
            if containsHeaders emsg then
              Except.error (Err.invalidTokenFormat (stripWs t).length)
            else .error .transport
          | .ok code msg data =>
            if code = 0 then .ok data
            else
              if containsHeaders (if msg.isEmpty then fallbackMsg code else msg) then
                .error (.invalidTokenFormat (stripWs t).length)
              else .error (.apiError (if msg.isEmpty then fallbackMsg code else msg))) =
            if containsHeaders emsg then
              Except.error (Err.invalidTokenFormat (stripWs t).length)
            else .error .transport from rfl, if_pos hh]]
      exact ⟨_, rfl⟩
    · exact ⟨.transport, by simp [hh]⟩
  | ok code msg d =>
    have hc : ¬code = 0 := by
      intro h
      subst h
      simp [isSuccess] at hfail
    by_cases hh : containsHeaders (if msg = [] then fallbackMsg code else msg) = true
    · exact ⟨.invalidTokenFormat (stripWs t).length, by simp [hc, hh]⟩
    · exact ⟨.apiError (if msg.isEmpty then fallbackMsg code else msg), by simp [hc, hh]⟩

/-- One step of `collectImagePairs`. -/
theorem collectImagePairs_cons (s : Seg) (chunk : List Seg) (c : List Char)
    (created : List (List Char)) :
    collectImagePairs (s :: chunk) (c :: created) =
      (match s with
       | .image url => [(c, url)]
       | .text _ => []) ++ collectImagePairs chunk created := by
  unfold collectImagePairs
  rw [List.length_cons, List.range_succ_eq_map, List.filterMap_cons,
    List.filterMap_map]
  have hcongr : ∀ j ∈ List.range chunk.length,
      ((fun j => match (s :: chunk)[j]?, (c :: created)[j]? with
        | some (Seg.image url), some blockId => some (blockId, url)
        | _, _ => none) ∘ (fun n => n + 1)) j =
      (fun j => match chunk[j]?, created[j]? with
        | some (Seg.image url), some blockId => some (blockId, url)
        | _, _ => none) j := by
    intro j _
    simp only [Function.comp_apply, List.getElem?_cons_succ]
  rw [List.filterMap_congr hcongr]
  cases s with
  | image url => simp
  | text v => simp

/-- With enough created children, the batch initiates exactly one upload per
image segment. -/
theorem collectImagePairs_length : ∀ (chunk : List Seg) (created : List (List Char)),
    chunk.length ≤ created.length →
    (collectImagePairs chunk created).length = (chunk.filter Seg.isImage).length := by
  intro chunk
  induction chunk with
  | nil => intro created h; rfl
  | cons s rest ih =>
    intro created h
    cases created with
    | nil => simp at h
    | cons c cr =>
      rw [collectImagePairs_cons]
      have h2 : rest.length ≤ cr.length := by
        simp only [List.length_cons] at h
        omega
      cases s with
      | image url => simp [Seg.isImage, ih cr h2]
      | text v => simp [Seg.isImage, ih cr h2]

/-- The update list keeps exactly the successful uploads. -/
theorem successfulUpdates_length (up : List Char → List Char → Option (List Char)) :
    ∀ (pairs : List (List Char × List Char)),
    (successfulUpdates (pairs.map fun p => (p.1, up p.2 p.1))).length =
      (pairs.filter fun p => (up p.2 p.1).isSome).length := by
  intro pairs
  induction pairs with
  | nil => rfl
  | cons p rest ih =>
    rw [List.map_cons, successfulUpdates, List.filterMap_cons]
    rw [successfulUpdates] at ih
    rw [List.filterMap_map] at ih ⊢
    cases hu : up p.2 p.1 with
    | none =>
      simp only [hu]
      rw [ih, List.filter_cons]
      simp [hu]
    | some tok =>
      simp only [hu]
      rw [List.length_cons, ih, List.filter_cons]
      simp [hu]

/-- Closed form of one batch step of `processBatches` under a healthy token
and a successful block-creation response: the later batches see the same
snapshot, and this batch contributes its block-creation event followed by
its patch event (present exactly when some upload succeeded). -/
theorem processBatches_cons_healthy (env : CDEnv) (docId t : List Char)
    (cfg : Config) (hexp : cfg.expiresAt = none) (htok : cfg.accessToken = some t)
    (hne : t ≠ []) (chunk : List Seg) (rest : List (List Seg)) (i : Nat)
    (msg : List Char) (d : List (List Char))
    (hresp : env.childrenResp i = .ok 0 msg d) :
    processBatches env docId cfg (chunk :: rest) i =
      ((processBatches env docId cfg rest (i + 1)).1,
       (processBatches env docId cfg rest (i + 1)).2.1,
       Event.apiCall ("/open-apis/docx/v1/documents/".toList ++ docId ++
           "/blocks/".toList ++ docId ++ "/children".toList) (bearer (stripWs t))
         (Body.children (chunk.map toBlock) (-1)) ::
       ((if (successfulUpdates ((collectImagePairs chunk d).map fun p =>
              (p.1, env.upload p.2 p.1))).isEmpty then [] else
          [Event.apiCall ("/open-apis/docx/v1/documents/".toList ++ docId ++
              "/blocks/batch_update".toList) (bearer (stripWs t))
            (Body.patch (successfulUpdates ((collectImagePairs chunk d).map fun p =>
              (p.1, env.upload p.2 p.1))))]) ++
        (processBatches env docId cfg rest (i + 1)).2.2)) := by
  simp only [processBatches, hresp,
    requestWithToken_ok cfg env.now env.workerResp _ _ msg d t hexp htok hne,
    batchUpdateBlocks_healthy cfg env docId i _ t hexp htok hne]
  by_cases hp : (collectImagePairs chunk d).isEmpty
  · have hpe : collectImagePairs chunk d = [] := List.isEmpty_iff.mp hp
    have hup : (successfulUpdates ((collectImagePairs chunk d).map fun p =>
        (p.1, env.upload p.2 p.1))).isEmpty = true := by
      rw [hpe]
      rfl
    simp only [hp, if_true, hup]
    rcases processBatches env docId cfg rest (i + 1) with ⟨res, cfg3, evs2⟩
    rfl
  · simp only [hp, Bool.false_eq_true, if_false]
    rcases processBatches env docId cfg rest (i + 1) with ⟨res, cfg3, evs2⟩
    rfl

/-- Under a healthy token and all-successful block-creation responses, the
batch loop succeeds, leaves the snapshot unchanged, and its trace carries
exactly one block-creation payload per batch, in order. -/
theorem processBatches_ok (env : CDEnv) (docId t : List Char) (cfg : Config)
    (hexp : cfg.expiresAt = none) (htok : cfg.accessToken = some t) (hne : t ≠ [])
    (hok : ∀ j, isSuccess (env.childrenResp j) = true) :
    ∀ (chunks : List (List Seg)) (i : Nat),
      (processBatches env docId cfg chunks i).1 = .ok () ∧
      (processBatches env docId cfg chunks i).2.1 = cfg ∧
      childrenBatches (processBatches env docId cfg chunks i).2.2 =
        chunks.map fun c => c.map toBlock := by
  intro chunks
  induction chunks with
  | nil => intro i; exact ⟨rfl, rfl, rfl⟩
  | cons chunk rest ih =>
    intro i
    obtain ⟨msg, d, hresp⟩ := (isSuccess_iff _).mp (hok i)
    obtain ⟨h1, h2, h3⟩ := ih (i + 1)
    rw [processBatches_cons_healthy env docId t cfg hexp htok hne chunk rest i msg d hresp]
    refine ⟨h1, h2, ?_⟩
    rw [List.map_cons, ← h3]
    simp only [childrenBatches, List.filterMap_cons, List.filterMap_append]
    by_cases hupd : (successfulUpdates ((collectImagePairs chunk d).map fun p =>
        (p.1, env.upload p.2 p.1))).isEmpty
    · simp [hupd]
    · simp [hupd]

/-- Sequencing: when every block-creation call before batch `k` succeeds and
batch `k`'s call fails, the loop errors out and the trace carries exactly the
first `k + 1` batch payloads — the failing call was issued, nothing after it
was. -/
theorem processBatches_stops (env : CDEnv) (docId t : List Char) (cfg : Config)
    (hexp : cfg.expiresAt = none) (htok : cfg.accessToken = some t) (hne : t ≠ []) :
    ∀ (chunks : List (List Seg)) (i k : Nat), k < chunks.length →
      (∀ j, j < k → isSuccess (env.childrenResp (i + j)) = true) →
      isSuccess (env.childrenResp (i + k)) = false →
      (∃ e, (processBatches env docId cfg chunks i).1 = .error e) ∧
      childrenBatches (processBatches env docId cfg chunks i).2.2 =
        (chunks.take (k + 1)).map fun c => c.map toBlock := by
  intro chunks
  induction chunks with
  | nil =>
    intro i k hk
    simp at hk
  | cons chunk rest ih =>
    intro i k hk hokj hfail
    cases k with
    | zero =>
      obtain ⟨e, hreq⟩ := requestWithToken_notSuccess cfg env.now env.workerResp
        ("/open-apis/docx/v1/documents/".toList ++ docId ++ "/blocks/".toList ++
          docId ++ "/children".toList)
        (Body.children (chunk.map toBlock) (-1)) (env.childrenResp i) t hexp htok hne
        (by simpa using hfail)
      simp only [processBatches, hreq]
      exact ⟨⟨e, rfl⟩, by simp [childrenBatches]⟩
    | succ k2 =>
      have hok0 : isSuccess (env.childrenResp i) = true := by
        have h0 := hokj 0 (Nat.succ_pos k2)
        simpa using h0
      obtain ⟨msg, d, hresp⟩ := (isSuccess_iff _).mp hok0
      rw [processBatches_cons_healthy env docId t cfg hexp htok hne chunk rest i
        msg d hresp]
      have hk2 : k2 < rest.length := by
        simp only [List.length_cons] at hk
        omega
      have hokj2 : ∀ j, j < k2 → isSuccess (env.childrenResp ((i + 1) + j)) = true := by
        intro j hj
        have hh := hokj (j + 1) (by omega)
        rwa [show i + (j + 1) = (i + 1) + j by omega] at hh
      have hfail2 : isSuccess (env.childrenResp ((i + 1) + k2)) = false := by
        rwa [show i + (k2 + 1) = (i + 1) + k2 by omega] at hfail
      obtain ⟨⟨e, he⟩, htrace⟩ := ih (i + 1) k2 hk2 hokj2 hfail2
      refine ⟨⟨e, he⟩, ?_⟩
      rw [List.take_succ_cons, List.map_cons, ← htrace]
      simp only [childrenBatches, List.filterMap_cons, List.filterMap_append]
      by_cases hupd : (successfulUpdates ((collectImagePairs chunk d).map fun p =>
          (p.1, env.upload p.2 p.1))).isEmpty
      · simp [hupd]
      · simp [hupd]

/-! ## Claim theorems -/

/-- C1 (counterexample): the claimed three-segment result is NOT what the
segmentation step produces for `"Hello\n![x](http://a/img.png)\nWorld"` —
the split keeps the newlines adjacent to the marker inside the text parts,
whose line-split then also emits empty Text segments. -/
theorem claim_C1_counterexample :
    segmentContent ("Hello\n![x](http://a/img.png)\nWorld".toList) ≠
      [Seg.text ("Hello".toList), Seg.image ("http://a/img.png".toList),
       Seg.text ("World".toList)] := by decide

/-- C1 (amended): the segmentation of
`"Hello\n![x](http://a/img.png)\nWorld"` is the five-segment sequence
Text "Hello", Text "", Image "http://a/img.png", Text "", Text "World", in
that order: the text parts `"Hello\n"` and `"\nWorld"` each split into two
lines, one of them empty. -/
theorem claim_C1_segmentation_scenario :
    segmentContent ("Hello\n![x](http://a/img.png)\nWorld".toList) =
      [Seg.text ("Hello".toList), Seg.text [],
       Seg.image ("http://a/img.png".toList),
       Seg.text [], Seg.text ("World".toList)] := by decide

/-- C2 (counterexample): for the image-free content `"a\n\nb"` the
segmentation emits a Text segment for the EMPTY middle line — the claim's
"no segments for empty lines" is false on the code (empty-string filtering
applies to whole regex-split parts, not to lines). -/
theorem claim_C2_counterexample :
    findImage ("a\n\nb".toList) = none ∧
    segmentContent ("a\n\nb".toList) =
      [Seg.text ['a'], Seg.text [], Seg.text ['b']] ∧
    Seg.text [] ∈ segmentContent ("a\n\nb".toList) ∧
    Seg.text [] ∉ ((splitLines ("a\n\nb".toList)).filter
      (fun l => !l.isEmpty)).map Seg.text := by decide

/-- C2 (amended): for every content string with zero image-regex matches,
the segmentation produces only Text segments, exactly one per line of the
content (empty lines included), in source order; empty content produces no
segments. -/
theorem claim_C2_text_segments (s : List Char) (h : findImage s = none) :
    segmentContent s =
      (if s.isEmpty then [] else (splitLines s).map Seg.text) ∧
    ∀ seg ∈ segmentContent s, ∃ v, seg = Seg.text v := by
  have h1 : segmentContent s =
      if s.isEmpty then [] else (splitLines s).map Seg.text := by
    rw [segmentContent, segmentAux, h]
  refine ⟨h1, ?_⟩
  intro seg hseg
  rw [h1] at hseg
  split at hseg
  · simp at hseg
  · obtain ⟨v, hv, hev⟩ := List.mem_map.mp hseg
    exact ⟨v, hev.symm⟩

/-- C2 (witness): the amended statement applied to the concrete image-free
content `"ab\ncd"`. -/
theorem claim_C2_witness :
    findImage ("ab\ncd".toList) = none ∧
    (segmentContent ("ab\ncd".toList) =
      (if ("ab\ncd".toList).isEmpty then []
       else (splitLines ("ab\ncd".toList)).map Seg.text) ∧
     ∀ seg ∈ segmentContent ("ab\ncd".toList), ∃ v, seg = Seg.text v) :=
  ⟨by decide, claim_C2_text_segments ("ab\ncd".toList) (by decide)⟩

/-- C9: for every content string, the segmentation loses nothing but the
image alt texts and the CR of each CRLF: the source's segments are the
instrumented segments with alt texts forgotten, and re-concatenating the
instrumented segments in order — Text values rejoined with LF where two
Text segments are adjacent, an `![alt](url)` marker re-inserted for each
Image segment — rebuilds the content up to line-break normalization. -/
theorem claim_C9_roundtrip (s : List Char) :
    segmentContent s = (segmentFull s).map eraseAlt ∧
    reconstructF (segmentFull s) = normalizeNl s :=
  ⟨segmentAux_eq_erase (s.length + 1) s,
   segmentFullAux_reconstruct (s.length + 1) s (Nat.lt_succ_self _)⟩

/-- C4 (counterexample): a snapshot whose recorded expiry is `0` IS set, and
`now = 10 > 0 - 300`, yet the code performs zero refresh calls — JS `Number`
truthiness treats the expiry `0` as absent (service.ts:62), refuting
"exactly once when the snapshot's expiry is set and now > expiresAt − 300". -/
theorem claim_C4_counterexample :
    cfgZero.expiresAt = some 0 ∧ ((10 : Int) > 0 - 300) ∧
    (getAccessTokenM cfgZero 10 .transportFail).2.2 = 0 ∧
    (getAccessTokenM cfgZero 10 wOk).2.2 = 0 := by decide

/-- C4 (amended): the refresh collaborator is invoked exactly once when the
expiry is set, NON-ZERO, and `now > expiresAt − 300`, and zero times
otherwise; with no recorded expiry the existing access token is returned
unconditionally; and a second call within the 300-second buffer window
after a successful refresh performs zero further refreshes. -/
theorem claim_C4_refresh_policy :
    (∀ (cfg : Config) (now : Int) (w : WorkerResp) (e : Int),
      cfg.expiresAt = some e → e ≠ 0 → now > e - 300 →
      (getAccessTokenM cfg now w).2.2 = 1)
    ∧ (∀ (cfg : Config) (now : Int) (w : WorkerResp),
        (∀ e, cfg.expiresAt = some e → e = 0 ∨ ¬now > e - 300) →
        (getAccessTokenM cfg now w).2.2 = 0 ∧
        (getAccessTokenM cfg now w).1 = .ok cfg.accessToken)
    ∧ (∀ (cfg : Config) (now : Int) (w : WorkerResp),
        cfg.expiresAt = none →
        getAccessTokenM cfg now w = (.ok cfg.accessToken, cfg, 0))
    ∧ (∀ (cfg cfg2 : Config) (now now2 : Int) (w w2 : WorkerResp)
        (tok : Option (List Char)),
        getAccessTokenM cfg now w = (.ok tok, cfg2, 1) →
        (∀ e2, cfg2.expiresAt = some e2 → now2 ≤ e2 - 300) →
        (getAccessTokenM cfg2 now2 w2).2.2 = 0) := by
  refine ⟨?_, ?_, ?_, ?_⟩
  · intro cfg now w e he hnz hgt
    have hsr : shouldRefresh cfg now = true := by
      simp [shouldRefresh, he, hnz, hgt]
    rw [getAccessTokenM, hsr]
    cases refreshTokenM cfg now w <;> simp
  · intro cfg now w hcond
    have hsr : shouldRefresh cfg now = false := by
      rw [shouldRefresh]
      cases hexp : cfg.expiresAt with
      | none => rfl
      | some e =>
        rcases hcond e hexp with h | h
        · simp [h]
        · simp [h]
    rw [getAccessTokenM, hsr]
    exact ⟨rfl, rfl⟩
  · intro cfg now w hexp
    exact getAccessToken_no_expiry cfg now w hexp
  · intro cfg cfg2 now now2 w w2 tok hcall hbuf
    rw [getAccessTokenM] at hcall
    by_cases hsr : shouldRefresh cfg now
    · rw [if_pos hsr] at hcall
      cases hrf : refreshTokenM cfg now w with
      | error u =>
        rw [hrf] at hcall
        simp at hcall
      | ok newCfg =>
        rw [hrf] at hcall
        simp only [Prod.mk.injEq] at hcall
        obtain ⟨htok2, hcfg2, _⟩ := hcall
        subst hcfg2
        have hexp2 : ∃ e2, newCfg.expiresAt = some e2 := by
          rw [refreshTokenM.eq_def] at hrf
          split at hrf
          · exact absurd hrf (by simp)
          · split at hrf
            · exact absurd hrf (by simp)
            · next data =>
              split at hrf
              · exact absurd hrf (by simp)
              · injection hrf with hcfg
                subst hcfg
                exact ⟨_, rfl⟩
        obtain ⟨e2, he2⟩ := hexp2
        have hle := hbuf e2 he2
        have hsr2 : shouldRefresh newCfg now2 = false := by
          rw [shouldRefresh, he2]
          simp
          intro _
          omega
        rw [getAccessTokenM, hsr2]
        rfl
    · rw [if_neg hsr] at hcall
      simp at hcall

/-- C4 (witness): the amended policy at concrete snapshots — an expiring
snapshot refreshes once, a fresh and a non-expiring snapshot refresh zero
times, and a second call 100 seconds after a successful refresh (well inside
the buffer of the new expiry 1000 + 7200) refreshes zero times. -/
theorem claim_C4_witness :
    (getAccessTokenM cfgExp 1000 wOk).2.2 = 1 ∧
    (getAccessTokenM testCfg 1000 wOk).2.2 = 0 ∧
    getAccessTokenM testCfg 1000 wOk = (.ok testCfg.accessToken, testCfg, 0) ∧
    (getAccessTokenM cfgRefreshed 1100 wOk).2.2 = 0 := by
  refine ⟨?_, ?_, ?_, ?_⟩
  · exact claim_C4_refresh_policy.1 cfgExp 1000 wOk 500 rfl (by decide) (by decide)
  · exact (claim_C4_refresh_policy.2.1 testCfg 1000 wOk
      (fun e he => by simp [testCfg] at he)).1
  · exact claim_C4_refresh_policy.2.2.1 testCfg 1000 wOk rfl
  · exact claim_C4_refresh_policy.2.2.2 cfgExp cfgRefreshed 1000 1100 wOk wOk
      (some ("newtok".toList)) (by decide)
      (fun e2 he2 => by
        simp [cfgRefreshed] at he2
        omega)

/-- C5 (counterexample): with `now = 1` the "expired" snapshot
`expiresAt = now − 1 = 0` is falsy, so even though the refresh collaborator
would fail, no refresh is attempted, no `SessionExpiredError` is raised, and
a document-service call IS attempted — the claim fails at this boundary. -/
theorem claim_C5_counterexample :
    cfgZero.expiresAt = some (1 - 1) ∧
    refreshTokenM cfgZero 1 .transportFail = .error () ∧
    (createDocumentM cfgZero envFail reqFix).1 ≠ .error .sessionExpired ∧
    (createDocumentM cfgZero envFail reqFix).2 ≠ [] := by decide

/-- C5 (amended): whenever the snapshot's expiry is set, non-zero, and
inside the refresh window (in particular any expired snapshot with
`expiresAt = now − 1 ≠ 0`), and the refresh collaborator fails for any
reason, `createDocument` fails with the session-expired error and its trace
is empty: no document-service call is attempted, so no remote document is
created or modified. -/
theorem claim_C5_session_expired (cfg : Config) (env : CDEnv) (info : CreateReq)
    (e : Int) (hexp : cfg.expiresAt = some e) (hnz : e ≠ 0)
    (hnow : env.now > e - 300)
    (hrf : refreshTokenM cfg env.now env.workerResp = .error ()) :
    createDocumentM cfg env info = (.error .sessionExpired, []) := by
  have hsr : shouldRefresh cfg env.now = true := by
    simp [shouldRefresh, hexp, hnz, hnow]
  have hget : getAccessTokenM cfg env.now env.workerResp =
      (.error .sessionExpired, cfg, 1) := by
    rw [getAccessTokenM, if_pos hsr, hrf]
  have hreq : requestWithTokenM cfg env.now env.workerResp
      "/open-apis/docx/v1/documents".toList
      (Body.createDoc info.repositoryId info.title) env.createDocResp =
      (.error .sessionExpired, cfg, []) := by
    rw [requestWithTokenM, hget]
  rw [createDocumentM, hreq]

/-- C5 (witness): the amended statement at a concrete expired snapshot
(`expiresAt` = 999 = now − 1 at `now` = 1000) with a transport-failing
refresh collaborator. -/
theorem claim_C5_witness :
    createDocumentM { testCfg with expiresAt := some 999 }
      { envFail with now := 1000 } reqFix = (.error .sessionExpired, []) :=
  claim_C5_session_expired { testCfg with expiresAt := some 999 }
    { envFail with now := 1000 } reqFix 999 rfl (by decide) (by decide) (by decide)

/-- C6 (counterexample): the failure for a non-zero envelope carries
neither the code nor, in general, the message.  The source throws
`new Error(json.msg || fallback)` (service.ts:129): the failures for code 7
and code 8 with the same `msg` are the very same error value, so the code is
not carried; and the catch at service.ts:136-138 rewraps a message that
contains the substring `'Headers'` into the invalid-token-format error
(embedding the cleaned token's length, here 3), so even the message is not
always carried. -/
theorem claim_C6_counterexample :
    (requestWithTokenM testCfg 1 .transportFail ("/d".toList)
        (Body.createDoc [] []) (.ok 7 ("no permission".toList) ())).1 =
      (requestWithTokenM testCfg 1 .transportFail ("/d".toList)
        (Body.createDoc [] []) (.ok 8 ("no permission".toList) ())).1 ∧
    (requestWithTokenM testCfg 1 .transportFail ("/d".toList)
        (Body.createDoc [] []) (.ok 7 ("no permission".toList) ())).1 =
      .error (.apiError ("no permission".toList)) ∧
    (requestWithTokenM testCfg 1 .transportFail ("/d".toList)
        (Body.createDoc [] []) (.ok 7 ("Headers invalid".toList) ())).1 =
      .error (.invalidTokenFormat 3) := by decide

/-- C6 (amended): a document-service envelope with a non-zero code fails
with an error carrying the envelope's message when the message is non-empty
and does not contain the substring `'Headers'`; a non-empty message
containing `'Headers'` is rewrapped by the catch into the
invalid-token-format error carrying the cleaned token's length; the numeric
code is not attached to the failure (it appears only textually inside the
fallback message used when `msg` is falsy).  In particular a
document-creation response with code 7 and msg "no permission" makes
`createDocument` fail with the error message "no permission" after exactly
the one document-creation call — zero block-creation calls are issued. -/
theorem claim_C6_envelope_failure :
    (∀ (α : Type) (cfg : Config) (now : Int) (w : WorkerResp) (path : List Char)
      (body : Body) (code : Int) (msg : List Char) (d : α) (t : List Char),
      cfg.expiresAt = none → cfg.accessToken = some t → t ≠ [] → code ≠ 0 →
      ¬msg.isEmpty → containsHeaders msg = false →
      (requestWithTokenM cfg now w path body (.ok code msg d)).1 =
        .error (.apiError msg))
    ∧ (∀ (α : Type) (cfg : Config) (now : Int) (w : WorkerResp) (path : List Char)
      (body : Body) (code : Int) (msg : List Char) (d : α) (t : List Char),
      cfg.expiresAt = none → cfg.accessToken = some t → t ≠ [] → code ≠ 0 →
      ¬msg.isEmpty → containsHeaders msg = true →
      (requestWithTokenM cfg now w path body (.ok code msg d)).1 =
        .error (.invalidTokenFormat (stripWs t).length))
    ∧ (∀ (cfg : Config) (env : CDEnv) (info : CreateReq) (code : Int)
        (msg : List Char) (d t : List Char),
        cfg.expiresAt = none → cfg.accessToken = some t → t ≠ [] →
        env.createDocResp = .ok code msg d → code ≠ 0 → ¬msg.isEmpty →
        containsHeaders msg = false →
        createDocumentM cfg env info =
          (.error (.apiError msg),
           [Event.apiCall "/open-apis/docx/v1/documents".toList
             (bearer (stripWs t)) (Body.createDoc info.repositoryId info.title)]) ∧
        childrenBatches (createDocumentM cfg env info).2 = []) := by
  refine ⟨?_, ?_, ?_⟩
  · intro α cfg now w path body code msg d t hexp htok hne hcode hmsg hhd
    rw [requestWithToken_healthy cfg now w path body _ t hexp htok hne]
    have hm2 : msg ≠ [] := by simpa using hmsg
    simp [hcode, hm2, hhd]
  · intro α cfg now w path body code msg d t hexp htok hne hcode hmsg hhd
    rw [requestWithToken_healthy cfg now w path body _ t hexp htok hne]
    have hm2 : msg ≠ [] := by simpa using hmsg
    simp [hcode, hm2, hhd]
  · intro cfg env info code msg d t hexp htok hne hresp hcode hmsg hhd
    have hm2 : msg ≠ [] := by simpa using hmsg
    have hreq2 : requestWithTokenM cfg env.now env.workerResp
        "/open-apis/docx/v1/documents".toList
        (Body.createDoc info.repositoryId info.title) env.createDocResp =
        (.error (.apiError msg), cfg,
         [Event.apiCall "/open-apis/docx/v1/documents".toList
           (bearer (stripWs t)) (Body.createDoc info.repositoryId info.title)]) := by
      rw [hresp,
        requestWithToken_healthy cfg env.now env.workerResp _ _ _ t hexp htok hne]
      simp [hcode, hm2, hhd]
    have hdoc : createDocumentM cfg env info =
        (.error (.apiError msg),
         [Event.apiCall "/open-apis/docx/v1/documents".toList
           (bearer (stripWs t)) (Body.createDoc info.repositoryId info.title)]) := by
      rw [createDocumentM, hreq2]
    refine ⟨hdoc, ?_⟩
    rw [hdoc]
    rfl

/-- C6 (witness): the amended statement at the concrete scenario — a
document-creation response with code 7 and msg "no permission" (which does
not contain 'Headers'), plus the rewrap conjunct at a message that does. -/
theorem claim_C6_witness :
    (createDocumentM testCfg
      { envFail with createDocResp := .ok 7 ("no permission".toList) [] } reqFix =
      (.error (.apiError ("no permission".toList)),
       [Event.apiCall "/open-apis/docx/v1/documents".toList
         (bearer (stripWs ("tok".toList)))
         (Body.createDoc ("fld".toList) ("T".toList))]) ∧
    childrenBatches (createDocumentM testCfg
      { envFail with createDocResp := .ok 7 ("no permission".toList) [] } reqFix).2 = []) ∧
    (requestWithTokenM testCfg 1 .transportFail ("/d".toList)
        (Body.createDoc [] []) (.ok 7 ("Headers invalid".toList) ())).1 =
      .error (.invalidTokenFormat (stripWs ("tok".toList)).length) :=
  ⟨claim_C6_envelope_failure.2.2 testCfg
    { envFail with createDocResp := .ok 7 ("no permission".toList) [] } reqFix
    7 ("no permission".toList) [] ("tok".toList) rfl rfl (by decide) rfl
    (by decide) (by decide) (by decide),
   claim_C6_envelope_failure.2.1 Unit testCfg 1 .transportFail ("/d".toList)
    (Body.createDoc [] []) 7 ("Headers invalid".toList) () ("tok".toList)
    rfl rfl (by decide) (by decide) (by decide) (by decide)⟩

/-- C3: batching.  (a) Under a healthy token, a successful document
creation, and all-successful block-creation responses, the block-creation
payload trace of `createDocument` is exactly the 50-chunking of the segment
sequence, in order.  (b) The chunking makes `ceil(N / 50)` batches, their
in-order concatenation is the segment sequence, every batch but the last has
exactly 50 children, and every batch is non-empty with at most 50.
(c) Sequencing: if the calls of batches before `k` succeed and batch `k`'s
call fails, the trace holds exactly the first `k + 1` batch payloads —
batch `n + 1` is submitted only after batch `n`'s call completed. -/
theorem claim_C3_batching :
    (∀ (cfg : Config) (env : CDEnv) (info : CreateReq) (t msg docId : List Char),
      cfg.expiresAt = none → cfg.accessToken = some t → t ≠ [] →
      env.createDocResp = .ok 0 msg docId →
      (∀ j, isSuccess (env.childrenResp j) = true) →
      childrenBatches (createDocumentM cfg env info).2 =
        (chunk50 (segmentContent info.content)).map fun c => c.map toBlock)
    ∧ (∀ (segs : List Seg),
        (chunk50 segs).length = (segs.length + 49) / 50 ∧
        (chunk50 segs).flatten = segs ∧
        (∀ c ∈ (chunk50 segs).dropLast, c.length = 50) ∧
        (∀ c ∈ chunk50 segs, c ≠ [] ∧ c.length ≤ 50))
    ∧ (∀ (cfg : Config) (env : CDEnv) (docId t : List Char)
        (chunks : List (List Seg)) (k : Nat),
        cfg.expiresAt = none → cfg.accessToken = some t → t ≠ [] →
        k < chunks.length →
        (∀ j, j < k → isSuccess (env.childrenResp j) = true) →
        isSuccess (env.childrenResp k) = false →
        childrenBatches (processBatches env docId cfg chunks 0).2.2 =
          (chunks.take (k + 1)).map fun c => c.map toBlock) := by
  refine ⟨?_, ?_, ?_⟩
  · intro cfg env info t msg docId hexp htok hne hdoc hok
    rw [createDocumentM, hdoc,
      requestWithToken_ok cfg env.now env.workerResp _ _ msg docId t hexp htok hne]
    obtain ⟨h1, h2, h3⟩ := processBatches_ok env docId t cfg hexp htok hne hok
      (chunk50 (segmentContent info.content)) 0
    rcases hloop : processBatches env docId cfg
      (chunk50 (segmentContent info.content)) 0 with ⟨res, cfg3, evs2⟩
    rw [hloop] at h1 h3
    dsimp only at h1 h3
    subst h1
    dsimp only
    rw [hloop]
    simpa [childrenBatches] using h3
  · intro segs
    exact ⟨chunkAux_length segs.length segs (Nat.le_refl _),
      chunkAux_flatten segs.length segs (Nat.le_refl _),
      chunkAux_dropLast_sizes segs.length segs (Nat.le_refl _),
      chunkAux_sizes segs.length segs (Nat.le_refl _)⟩
  · intro cfg env docId t chunks k hexp htok hne hk hupto hfail
    exact (processBatches_stops env docId t cfg hexp htok hne chunks 0 k hk
      (by simpa using hupto) (by simpa using hfail)).2

/-- C3 (witness): the healthy-trace conjunct at a concrete request, and the
120-segment scenario: 120 text segments produce 3 batches of sizes 50, 50,
20, in that order. -/
theorem claim_C3_witness :
    childrenBatches (createDocumentM testCfg envC3 reqFix).2 =
      (chunk50 (segmentContent reqFix.content)).map (fun c => c.map toBlock) ∧
    (chunk50 (List.replicate 120 (Seg.text ['a']))).map List.length =
      [50, 50, 20] ∧
    (chunk50 (List.replicate 120 (Seg.text ['a']))).length = (120 + 49) / 50 := by
  refine ⟨?_, by decide, ?_⟩
  · exact claim_C3_batching.1 testCfg envC3 reqFix ("tok".toList) [] ("D".toList)
      rfl rfl (by decide) rfl (fun j => rfl)
  · rw [(claim_C3_batching.2.1 (List.replicate 120 (Seg.text ['a']))).1]
    simp

/-- C7: for a batch whose created-children array covers the chunk, the loop
initiates exactly one upload per image segment (K of them); the update list
contains exactly the successful `{blockId, token}` pairs (U of them); and
the trace carries exactly one patch call holding that update list when it is
non-empty, and zero patch calls when U = 0. -/
theorem claim_C7_patch_batching (cfg : Config) (env : CDEnv) (docId t : List Char)
    (chunk : List Seg) (i : Nat) (msg : List Char) (created : List (List Char))
    (hexp : cfg.expiresAt = none) (htok : cfg.accessToken = some t) (hne : t ≠ [])
    (hresp : env.childrenResp i = .ok 0 msg created)
    (hcov : chunk.length ≤ created.length) :
    (collectImagePairs chunk created).length =
      (chunk.filter Seg.isImage).length ∧
    (successfulUpdates ((collectImagePairs chunk created).map fun p =>
        (p.1, env.upload p.2 p.1))).length =
      ((collectImagePairs chunk created).filter fun p =>
        (env.upload p.2 p.1).isSome).length ∧
    patchBatches (processBatches env docId cfg [chunk] i).2.2 =
      (if (successfulUpdates ((collectImagePairs chunk created).map fun p =>
          (p.1, env.upload p.2 p.1))).isEmpty then [] else
        [successfulUpdates ((collectImagePairs chunk created).map fun p =>
          (p.1, env.upload p.2 p.1))]) := by
  refine ⟨collectImagePairs_length chunk created hcov,
    successfulUpdates_length env.upload (collectImagePairs chunk created), ?_⟩
  rw [processBatches_cons_healthy env docId t cfg hexp htok hne chunk [] i
    msg created hresp]
  by_cases hupd : (successfulUpdates ((collectImagePairs chunk created).map fun p =>
      (p.1, env.upload p.2 p.1))).isEmpty
  · simp [hupd, patchBatches, processBatches]
  · simp [hupd, patchBatches, processBatches]

/-- C7 (witness): a concrete batch of one text and two image segments, with
a children array of three block ids, where only the first image's upload
succeeds: one upload pair per image, one successful update, and exactly one
patch call carrying it. -/
theorem claim_C7_witness :
    (collectImagePairs [Seg.text ['x'], Seg.image ("u1".toList),
        Seg.image ("u2".toList)] [("b1".toList), ("b2".toList), ("b3".toList)]).length =
      ([Seg.text ['x'], Seg.image ("u1".toList),
        Seg.image ("u2".toList)].filter Seg.isImage).length ∧
    (successfulUpdates ((collectImagePairs [Seg.text ['x'], Seg.image ("u1".toList),
        Seg.image ("u2".toList)] [("b1".toList), ("b2".toList), ("b3".toList)]).map fun p =>
        (p.1, envC7.upload p.2 p.1))).length =
      ((collectImagePairs [Seg.text ['x'], Seg.image ("u1".toList),
        Seg.image ("u2".toList)] [("b1".toList), ("b2".toList), ("b3".toList)]).filter fun p =>
        (envC7.upload p.2 p.1).isSome).length ∧
    patchBatches (processBatches envC7 ("D".toList) testCfg
        [[Seg.text ['x'], Seg.image ("u1".toList), Seg.image ("u2".toList)]] 0).2.2 =
      (if (successfulUpdates ((collectImagePairs [Seg.text ['x'], Seg.image ("u1".toList),
          Seg.image ("u2".toList)] [("b1".toList), ("b2".toList), ("b3".toList)]).map fun p =>
          (p.1, envC7.upload p.2 p.1))).isEmpty then [] else
        [successfulUpdates ((collectImagePairs [Seg.text ['x'], Seg.image ("u1".toList),
          Seg.image ("u2".toList)] [("b1".toList), ("b2".toList), ("b3".toList)]).map fun p =>
          (p.1, envC7.upload p.2 p.1))]) :=
  claim_C7_patch_batching testCfg envC7 ("D".toList) ("tok".toList)
    [Seg.text ['x'], Seg.image ("u1".toList), Seg.image ("u2".toList)] 0 []
    [("b1".toList), ("b2".toList), ("b3".toList)]
    rfl rfl (by decide) rfl (by decide)

/-- C8: (a) every per-image failure — download rejection, non-ok download
status, token-acquisition throw, upload rejection, or a non-zero upload
code — makes `uploadImage` return null rather than throw; (b) consequently
`createDocument` succeeds whatever the per-image upload results are (the
upload oracle and patch responses are arbitrary here), continuing through
all images and segments. -/
theorem claim_C8_upload_isolation :
    (∀ (env : UploadEnv) (url node : List Char),
      (env.download = .throws ∨ env.download = .resp false ∨
       (∃ e, env.tokenOutcome = .error e) ∨ env.upload = .throws ∨
       (∃ code tok2, env.upload = .resp code tok2 ∧ code ≠ 0)) →
      (uploadImageM env url node).1 = none)
    ∧ (∀ (cfg : Config) (env : CDEnv) (info : CreateReq) (t msg docId : List Char),
        cfg.expiresAt = none → cfg.accessToken = some t → t ≠ [] →
        env.createDocResp = .ok 0 msg docId →
        (∀ j, isSuccess (env.childrenResp j) = true) →
        (createDocumentM cfg env info).1 =
          .ok { href := "https://feishu.cn/docx/".toList ++ docId,
                repositoryId := info.repositoryId, documentId := docId }) := by
  constructor
  · intro env url node hfail
    rcases hfail with h | h | ⟨e, h⟩ | h | ⟨code, tok2, h, hzr⟩
    · simp [uploadImageM, h]
    · simp [uploadImageM, h]
    · rw [uploadImageM.eq_def]
      cases hd : env.download with
      | throws => rfl
      | resp ok =>
        by_cases hok : ok
        · simp [hok, h]
        · simp [hok]
    · rw [uploadImageM.eq_def]
      cases hd : env.download with
      | throws => rfl
      | resp ok =>
        by_cases hok : ok
        · cases htk : env.tokenOutcome with
          | error e => simp [hok]
          | ok tok => simp [hok, h]
        · simp [hok]
    · rw [uploadImageM.eq_def]
      cases hd : env.download with
      | throws => rfl
      | resp ok =>
        by_cases hok : ok
        · cases htk : env.tokenOutcome with
          | error e => simp [hok]
          | ok tok => simp [hok, h, hzr]
        · simp [hok]
  · intro cfg env info t msg docId hexp htok hne hdoc hok
    rw [createDocumentM, hdoc,
      requestWithToken_ok cfg env.now env.workerResp _ _ msg docId t hexp htok hne]
    obtain ⟨h1, h2, h3⟩ := processBatches_ok env docId t cfg hexp htok hne hok
      (chunk50 (segmentContent info.content)) 0
    rcases hloop : processBatches env docId cfg
      (chunk50 (segmentContent info.content)) 0 with ⟨res, cfg3, evs2⟩
    rw [hloop] at h1
    dsimp only at h1
    subst h1
    dsimp only
    rw [hloop]

/-- C8 (witness): the isolation statement at concrete failing collaborators
(a throwing download; a non-zero upload code), and a full `createDocument`
run in which every upload fails yet the publish succeeds. -/
theorem claim_C8_witness :
    (uploadImageM upEnvThrow ("u".toList) ("b".toList)).1 = none ∧
    (uploadImageM upEnvBadCode ("u".toList) ("b".toList)).1 = none ∧
    (createDocumentM testCfg envC7 reqFix).1 =
      .ok { href := "https://feishu.cn/docx/".toList ++ "D".toList,
            repositoryId := reqFix.repositoryId, documentId := "D".toList } := by
  refine ⟨?_, ?_, ?_⟩
  · exact claim_C8_upload_isolation.1 upEnvThrow _ _ (Or.inl rfl)
  · exact claim_C8_upload_isolation.1 upEnvBadCode _ _
      (Or.inr (Or.inr (Or.inr (Or.inr ⟨99, ("ft".toList), rfl, by decide⟩))))
  · exact claim_C8_upload_isolation.2 testCfg envC7 reqFix ("tok".toList) []
      ("D".toList) rfl rfl (by decide) rfl (fun j => rfl)

/-- C10: (a) the media-upload request attaches the token EXACTLY as returned
by `getAccessToken` — its bearer header is `Bearer ` ++ token, no whitespace
stripping (service.ts:203); (b) every other API call's event carries
`Bearer ` ++ the whitespace-STRIPPED token (service.ts:97); (c) hence for
any token containing whitespace the two bearer credentials differ. -/
theorem claim_C10_bearer_raw :
    (∀ (env : UploadEnv) (url node tok : List Char),
      env.download = .resp true → env.tokenOutcome = .ok (some tok) →
      (uploadImageM env url node).2 =
        [.download url, .upload (bearer tok) node])
    ∧ (∀ (α : Type) (cfg : Config) (now : Int) (w : WorkerResp) (path : List Char)
        (body : Body) (resp : FetchResult α) (t : List Char),
        cfg.expiresAt = none → cfg.accessToken = some t → t ≠ [] →
        (requestWithTokenM cfg now w path body resp).2.2 =
          [Event.apiCall path (bearer (stripWs t)) body])
    ∧ (∀ tok : List Char, (∃ c ∈ tok, isJsWs c = true) →
        bearer tok ≠ bearer (stripWs tok)) := by
  refine ⟨?_, ?_, ?_⟩
  · intro env url node tok hd htk
    rw [uploadImageM.eq_def, hd]
    cases hu : env.upload with
    | throws => simp [htk, jsInterp]
    | resp code ft =>
      by_cases hc : code = 0 <;> simp [htk, jsInterp, hc]
  · intro α cfg now w path body resp t hexp htok hne
    rw [requestWithToken_healthy cfg now w path body resp t hexp htok hne]
  · rintro tok ⟨c, hc, hw⟩ heq
    have hne : stripWs tok = tok := (List.append_cancel_left heq).symm
    have hlt : (stripWs tok).length < tok.length := by
      apply List.length_filter_lt_length_iff_exists.mpr
      exact ⟨c, hc, by simp [hw]⟩
    rw [hne] at hlt
    exact lt_irrefl _ hlt

/-- C10 (witness): the statement at the concrete token `"a b"` (containing a
space): the media header keeps the space, the API header strips it, and the
two differ. -/
theorem claim_C10_witness :
    (uploadImageM upEnvWs ("u".toList) ("n".toList)).2 =
      [.download ("u".toList), .upload (bearer ("a b".toList)) ("n".toList)] ∧
    (requestWithTokenM cfgWs 1 .transportFail ("/d".toList) (Body.createDoc [] [])
        (.ok 0 [] ())).2.2 =
      [Event.apiCall ("/d".toList) (bearer (stripWs ("a b".toList)))
        (Body.createDoc [] [])] ∧
    bearer ("a b".toList) ≠ bearer (stripWs ("a b".toList)) := by
  refine ⟨?_, ?_, ?_⟩
  · exact claim_C10_bearer_raw.1 upEnvWs ("u".toList) ("n".toList) ("a b".toList) rfl rfl
  · exact claim_C10_bearer_raw.2.1 Unit cfgWs 1 .transportFail
      ("/d".toList) (Body.createDoc [] []) (.ok 0 [] ()) ("a b".toList)
      rfl rfl (by decide)
  · exact claim_C10_bearer_raw.2.2 ("a b".toList) ⟨' ', by decide, by decide⟩

end Feishu
